import Mathlib

/-! The gofreetds value codec (`convert.go`)

A shallow embedding of `sqlBufToType` (wire bytes to Go value) and
`typeToSqlBuf` (Go value to wire bytes), with the parts of the Go runtime
they call: `encoding/binary` in little-endian order, `time.Time` and
`time.Duration`, and IEEE-754 double arithmetic.

Conventions
* a byte is a `Nat` below 256, a buffer is a `List Nat`;
* a Go string is its byte sequence;
* machine integers are `Int` (signed) or `Nat` (unsigned), every narrowing
  conversion and every overflowing operation is an explicit `wrapS`/`wrapU`;
* a run-time panic (index or slice out of range) is `none`.
-/

namespace Freetds

/-! ## Machine integers and `encoding/binary` -/

/-- The unsigned `w`-bit value with the same low `w` bits as `i`. -/
def wrapU (w : Nat) (i : Int) : Nat := (i % (2 : Int) ^ w).toNat

/-- The signed two's-complement `w`-bit value with the same low `w` bits as `i`. -/
def wrapS (w : Nat) (i : Int) : Int :=
  if i % (2 : Int) ^ w < (2 : Int) ^ (w - 1) then i % (2 : Int) ^ w
  else i % (2 : Int) ^ w - (2 : Int) ^ w

/-- The `n` little-endian bytes of `v` (its low `8 * n` bits). -/
def leBytes : Nat → Nat → List Nat
  | 0, _ => []
  | n + 1, v => v % 256 :: leBytes n (v / 256)

/-- The number whose little-endian bytes are `bs`. -/
def leNat : List Nat → Nat
  | [] => 0
  | b :: bs => b + 256 * leNat bs

/-- Every element is a byte. -/
def IsBytes (bs : List Nat) : Prop := ∀ b ∈ bs, b < 256

instance (bs : List Nat) : Decidable (IsBytes bs) := by
  unfold IsBytes; infer_instance

/-- `binary.Write(buf, binary.LittleEndian, v)` for an unsigned integer of `n` bytes. -/
def writeUint (n : Nat) (v : Nat) : List Nat := leBytes n v

/-- `binary.Write(buf, binary.LittleEndian, v)` for a signed integer of `n` bytes. -/
def writeInt (n : Nat) (v : Int) : List Nat := leBytes n (wrapU (8 * n) v)

/-- `binary.Read(buf, binary.LittleEndian, &v)` for an integer of `n` bytes: the raw
unsigned field and the rest of the buffer.  When fewer than `n` bytes are left,
`io.ReadFull` drains the buffer, `binary.Read` returns an error (which the
caller drops) and `v` keeps its zero value. -/
def binaryRead (n : Nat) (buf : List Nat) : Nat × List Nat :=
  if n ≤ buf.length then (leNat (buf.take n) % 2 ^ (8 * n), buf.drop n) else (0, [])

/-! ## IEEE-754 binary64 arithmetic (Go `float64`) -/

/-- A Go `float64`, as its IEEE-754 bit pattern (`math.Float64bits`). -/
structure Float64 where
  bits : Nat
deriving DecidableEq, Repr

/-- A Go `float32`, as its IEEE-754 bit pattern (`math.Float32bits`).  The codec
only moves its four bytes. -/
structure Float32 where
  bits : Nat
deriving DecidableEq, Repr

/-- What a binary64 bit pattern denotes: not-a-number, an infinity, or the
rational `(-1)^neg * num / den`. -/
inductive FVal where
  | nan
  | inf (neg : Bool)
  | fin (neg : Bool) (num den : Nat)
deriving DecidableEq, Repr

namespace Float64

/-- Decoding of the sign, the 11 exponent bits and the 52 fraction bits. -/
def val (f : Float64) : FVal :=
  let b := f.bits % 2 ^ 64
  let neg := decide (b / 2 ^ 63 = 1)
  let e := b / 2 ^ 52 % 2048
  let m := b % 2 ^ 52
  if e = 2047 then (if m = 0 then FVal.inf neg else FVal.nan)
  else if e = 0 then FVal.fin neg m (2 ^ 1074)
  else if 1075 ≤ e then FVal.fin neg ((2 ^ 52 + m) * 2 ^ (e - 1075)) 1
  else FVal.fin neg (2 ^ 52 + m) (2 ^ (1075 - e))

/-- A quiet NaN (which NaN an operation yields plays no part in the codec). -/
def nan : Float64 := ⟨0x7FF8000000000001⟩

/-- Signed infinity. -/
def inf (neg : Bool) : Float64 := ⟨(if neg then 2 ^ 63 else 0) + 0x7FF0000000000000⟩

/-- Signed zero. -/
def zero (neg : Bool) : Float64 := ⟨if neg then 2 ^ 63 else 0⟩

/-- Position of the highest set bit, `floor (log2 n)` for `n > 0`; the first
argument bounds the number of halvings. -/
def log2Aux : Nat → Nat → Nat
  | 0, _ => 0
  | fuel + 1, n => if n < 2 then 0 else log2Aux fuel (n / 2) + 1

/-- The binary logarithm `floor (log2 n)` (`0` at `0`). -/
def log2 (n : Nat) : Nat := log2Aux n n

/-- The binary64 nearest to `(-1)^neg * num / den` (`den > 0`), ties to even:
the rounding every IEEE operation applies to its exact result. -/
def round (neg : Bool) (num den : Nat) : Float64 :=
  if num = 0 then zero neg
  else
    let k0 : Int := (log2 num : Int) - (log2 den : Int)
    -- floor (log2 (num / den)) is k0 or k0 - 1
    let ge : Bool :=
      if 0 ≤ k0 then decide (den * 2 ^ k0.toNat ≤ num)
      else decide (den ≤ num * 2 ^ (-k0).toNat)
    let k : Int := if ge then k0 else k0 - 1
    -- exponent of the last place: normal numbers keep 53 bits, subnormals stop at 2^-1074
    let e : Int := max (k - 52) (-1074)
    let n := if e < 0 then num * 2 ^ (-e).toNat else num
    let d := if e < 0 then den else den * 2 ^ e.toNat
    let q := n / d
    let r := n % d
    let q1 := if d < 2 * r ∨ (2 * r = d ∧ q % 2 = 1) then q + 1 else q
    let b := (e + 1074).toNat * 2 ^ 52 + q1
    ⟨(if neg then 2 ^ 63 else 0) + min b 0x7FF0000000000000⟩

/-- Conversion `float64(i)` of an integer. -/
def ofInt (i : Int) : Float64 := round (decide (i < 0)) i.natAbs 1

/-- The product `a * b`. -/
def mul (a b : Float64) : Float64 :=
  match a.val, b.val with
  | FVal.nan, _ => nan
  | _, FVal.nan => nan
  | FVal.inf s, FVal.inf t => inf (xor s t)
  | FVal.inf s, FVal.fin t m _ => if m = 0 then nan else inf (xor s t)
  | FVal.fin s n _, FVal.inf t => if n = 0 then nan else inf (xor s t)
  | FVal.fin s n d, FVal.fin t m e => round (xor s t) (n * m) (d * e)

/-- The quotient `a / b`. -/
def div (a b : Float64) : Float64 :=
  match a.val, b.val with
  | FVal.nan, _ => nan
  | _, FVal.nan => nan
  | FVal.inf _, FVal.inf _ => nan
  | FVal.inf s, FVal.fin t _ _ => inf (xor s t)
  | FVal.fin s _ _, FVal.inf t => zero (xor s t)
  | FVal.fin s n d, FVal.fin t m e =>
    if m = 0 then (if n = 0 then nan else inf (xor s t))
    else round (xor s t) (n * e) (d * m)

/-- The sum `a + b`. -/
def add (a b : Float64) : Float64 :=
  match a.val, b.val with
  | FVal.nan, _ => nan
  | _, FVal.nan => nan
  | FVal.inf s, FVal.inf t => if s = t then inf s else nan
  | FVal.inf s, FVal.fin _ _ _ => inf s
  | FVal.fin _ _ _, FVal.inf t => inf t
  | FVal.fin s n d, FVal.fin t m e =>
    let x : Int := (if s then -1 else 1) * ((n * e : Nat) : Int)
      + (if t then -1 else 1) * ((m * d : Nat) : Int)
    if x = 0 then zero (s && t)
    else round (decide (x < 0)) x.natAbs (d * e)

/-- The integer part (truncation toward zero) of a finite value. -/
def trunc (f : Float64) : Option Int :=
  match f.val with
  | FVal.fin s n d => some ((if s then -1 else 1) * ((n / d : Nat) : Int))
  | _ => none

/-- Conversion `int64(f)`.  Go leaves the result open when the truncated value
does not fit; the model returns what the amd64 conversion instruction
returns there, the smallest `int64`. -/
def toInt64 (f : Float64) : Int :=
  match f.trunc with
  | some i => if -(2 : Int) ^ 63 ≤ i ∧ i < (2 : Int) ^ 63 then i else -(2 : Int) ^ 63
  | none => -(2 : Int) ^ 63

/-- Conversion `int32(f)` (same remark: the smallest `int32` when out of range). -/
def toInt32 (f : Float64) : Int :=
  match f.trunc with
  | some i => if -(2 : Int) ^ 31 ≤ i ∧ i < (2 : Int) ^ 31 then i else -(2 : Int) ^ 31
  | none => -(2 : Int) ^ 31

/-- Conversion `uint16(f)`: the compiler converts to a 32-bit integer and keeps
the low 16 bits. -/
def toUint16 (f : Float64) : Nat := wrapU 16 (toInt32 f)

end Float64

/-! ## `time.Time` and `time.Duration` -/

/-- A Go `time.Time` read in UTC: `sec` whole seconds since January 1 of year 1,
00:00:00 UTC (the count Go keeps internally) and `nsec` nanoseconds into that
second, `0 ≤ nsec < 10^9`.  The location is left out: the encoder calls `UTC()`
first and the decoder builds UTC values.  A `time.Duration` is its `int64`
nanosecond count, an `Int`. -/
structure Time where
  sec : Int
  nsec : Int
deriving DecidableEq, Repr

/-- The constant `time.Second`, in nanoseconds. -/
abbrev Second : Int := 1000000000

/-- The constant `time.Minute`. -/
abbrev Minute : Int := 60 * Second

/-- The constant `time.Hour`. -/
abbrev Hour : Int := 60 * Minute

/-- The largest `time.Duration`. -/
abbrev maxDuration : Int := 2 ^ 63 - 1

/-- The smallest `time.Duration`. -/
abbrev minDuration : Int := -(2 ^ 63)

namespace Time

/-- A well-formed time value: nanoseconds within the second, seconds in `int64`. -/
def Valid (t : Time) : Prop :=
  0 ≤ t.nsec ∧ t.nsec < 1000000000 ∧ -(2 : Int) ^ 63 ≤ t.sec ∧ t.sec < (2 : Int) ^ 63

instance (t : Time) : Decidable (Valid t) := by
  unfold Valid; infer_instance

/-- The method `t.Add(d)`: split `d` into seconds and nanoseconds (Go's `/` and `%`
truncate toward zero) and carry.  The second count is kept unbounded: the codec
only adds a Duration (under `2^34` seconds) to the 1900 start value, far from
the `int64` limits that `addSec` guards. -/
def Add (t : Time) (d : Int) : Time :=
  let dsec := Int.tdiv d 1000000000
  let nsec := t.nsec + Int.tmod d 1000000000
  if 1000000000 ≤ nsec then ⟨t.sec + (dsec + 1), nsec - 1000000000⟩
  else if nsec < 0 then ⟨t.sec + (dsec - 1), nsec + 1000000000⟩
  else ⟨t.sec + dsec, nsec⟩

/-- The method `t.Before(u)`. -/
def Before (t u : Time) : Bool :=
  decide (t.sec < u.sec ∨ (t.sec = u.sec ∧ t.nsec < u.nsec))

/-- The method `t.Sub(u)`: the difference in wrapping `int64` arithmetic, kept when
adding it back to `u` gives `t`, else the Duration limit on the side of `t`. -/
def Sub (t u : Time) : Int :=
  let d := wrapS 64 (wrapS 64 (wrapS 64 (t.sec - u.sec) * Second) + (t.nsec - u.nsec))
  if u.Add d = t then d
  else if t.Before u then minDuration
  else maxDuration

/-- The method `t.abs()` for a UTC time: seconds since the start of Go's absolute
era, as a `uint64` (the shift is a whole number of days). -/
def abs (t : Time) : Nat := wrapU 64 (t.sec + 9223371966579724800)

/-- The method `t.Hour()`. -/
def Hour (t : Time) : Int := ((t.abs % 86400 / 3600 : Nat) : Int)

/-- The method `t.Minute()`. -/
def Minute (t : Time) : Int := ((t.abs % 3600 / 60 : Nat) : Int)

/-- The method `t.Second()`. -/
def Second (t : Time) : Int := ((t.abs % 60 : Nat) : Int)

/-- The method `t.Nanosecond()`. -/
def Nanosecond (t : Time) : Int := t.nsec

end Time

/-- The method `d.Hours()` of a Duration: whole hours plus the remaining nanoseconds
over an hour, both as `float64`. -/
def Hours (d : Int) : Float64 :=
  let hour := Int.tdiv d Hour
  let nsec := Int.tmod d Hour
  Float64.add (Float64.ofInt hour) (Float64.div (Float64.ofInt nsec) (Float64.ofInt 3600000000000))

/-! ## Go values -/

/-- A Go `interface{}` value by dynamic type.  `other` stands for a value of any
further type, of which the codec only prints the type name. -/
inductive Value where
  | uint8 (v : Nat)
  | int16 (v : Int)
  | int32 (v : Int)
  | int64 (v : Int)
  | int (v : Int)
  | float32 (v : Float32)
  | float64 (v : Float64)
  | bool (v : Bool)
  | time (v : Time)
  | bytes (v : List Nat)
  | string (v : List Nat)
  | other (typeName : String)
deriving DecidableEq, Repr

/-- What the verb `%T` prints for a value. -/
def Value.typeName : Value → String
  | Value.uint8 _ => "uint8"
  | Value.int16 _ => "int16"
  | Value.int32 _ => "int32"
  | Value.int64 _ => "int64"
  | Value.int _ => "int"
  | Value.float32 _ => "float32"
  | Value.float64 _ => "float64"
  | Value.bool _ => "bool"
  | Value.time _ => "time.Time"
  | Value.bytes _ => "[]uint8"
  | Value.string _ => "string"
  | Value.other n => n

/-- The error text `fmt.Sprintf("Could not convert %T to <want>.", value)`. -/
def convertError (value : Value) (want : String) : String :=
  "Could not convert " ++ value.typeName ++ " to " ++ want ++ "."

/-! ## Type codes

The constant block of `convert.go`.  The switches name most codes through cgo
(`C.SYBINT1`, ...); the Go constants carry the same numbers. -/

abbrev SYBINT1 : Int := 48
abbrev SYBINT2 : Int := 52
abbrev SYBINT4 : Int := 56
abbrev SYBINT8 : Int := 127
abbrev SYBCHAR : Int := 47
abbrev SYBVARCHAR : Int := 39
abbrev SYBNVARCHAR : Int := 103
abbrev SYBREAL : Int := 59
abbrev SYBFLT8 : Int := 62
abbrev SYBBIT : Int := 50
abbrev SYBMONEY4 : Int := 122
abbrev SYBMONEY : Int := 60
abbrev SYBDATETIME : Int := 61
abbrev SYBDATETIME4 : Int := 58
abbrev SYBIMAGE : Int := 34
abbrev SYBBINARY : Int := 45
abbrev SYBVARBINARY : Int := 37
abbrev XSYBVARBINARY : Int := 165

/-- The value `time.Date(1900, 1, 1, 0, 0, 0, 0, time.UTC)`: 693595 days after
January 1 of year 1. -/
def sqlStartTime : Time := ⟨59926608000, 0⟩

/-! ## The decoder -/

/-- The call `strings.Index(string(data), "\x00")`: position of the first zero byte,
`-1` when there is none. -/
def indexZero : List Nat → Int
  | [] => -1
  | b :: bs => if b = 0 then 0 else if indexZero bs < 0 then -1 else indexZero bs + 1

/-- The slice expression `data[:hi]`; out-of-range bounds panic. -/
def sliceTo (data : List Nat) (hi : Int) : Option (List Nat) :=
  if 0 ≤ hi ∧ hi ≤ (data.length : Int) then some (data.take hi.toNat) else none

/-- The function `sqlBufToType(datatype, data)`; `none` is a run-time panic. -/
def sqlBufToType (datatype : Int) (data : List Nat) : Option Value :=
  if datatype = SYBINT1 then
    some (Value.uint8 (binaryRead 1 data).1)
  else if datatype = SYBINT2 then
    some (Value.int16 (wrapS 16 (binaryRead 2 data).1))
  else if datatype = SYBINT4 then
    some (Value.int32 (wrapS 32 (binaryRead 4 data).1))
  else if datatype = SYBINT8 then
    some (Value.int64 (wrapS 64 (binaryRead 8 data).1))
  else if datatype = SYBDATETIME then
    let r := binaryRead 4 data
    let days : Int := wrapS 32 r.1
    let sec : Int := (binaryRead 4 r.2).1
    let value := sqlStartTime
    some (Value.time
      ((value.Add (wrapS 64 (wrapS 64 (days * Hour) * 24))).Add
        (Int.tdiv (wrapS 64 (sec * Second)) 300)))
  else if datatype = SYBDATETIME4 then
    let r := binaryRead 2 data
    let days : Int := r.1
    let mins : Int := (binaryRead 2 r.2).1
    let value := sqlStartTime
    some (Value.time
      ((value.Add (wrapS 64 (wrapS 64 (days * Hour) * 24))).Add (wrapS 64 (mins * Minute))))
  else if datatype = SYBMONEY then
    let r := binaryRead 4 data
    let high : Int := wrapS 32 r.1
    let low : Int := (binaryRead 4 r.2).1
    some (Value.float64
      (Float64.div (Float64.ofInt (wrapS 64 (wrapS 64 (high * 4294967296) + low)))
        (Float64.ofInt 10000)))
  else if datatype = SYBMONEY4 then
    some (Value.float64
      (Float64.div (Float64.ofInt (wrapS 32 (binaryRead 4 data).1)) (Float64.ofInt 10000)))
  else if datatype = SYBREAL then
    some (Value.float32 ⟨(binaryRead 4 data).1⟩)
  else if datatype = SYBFLT8 then
    some (Value.float64 ⟨(binaryRead 8 data).1⟩)
  else if datatype = SYBBIT then
    match data with
    | [] => none
    | b :: _ => some (Value.bool (decide (b = 1)))
  else if datatype = SYBIMAGE ∨ datatype = SYBVARBINARY ∨ datatype = SYBBINARY then
    (sliceTo data ((data.length : Int) - 1)).map Value.bytes
  else
    (sliceTo data (indexZero data)).map Value.string

/-! ## The encoder -/

instance : DecidableEq (Except String (List Nat)) := fun a b =>
  match a, b with
  | Except.ok x, Except.ok y =>
    if h : x = y then isTrue (by rw [h]) else isFalse (fun e => h (by cases e; rfl))
  | Except.error x, Except.error y =>
    if h : x = y then isTrue (by rw [h]) else isFalse (fun e => h (by cases e; rfl))
  | Except.ok _, Except.error _ => isFalse (fun e => by cases e)
  | Except.error _, Except.ok _ => isFalse (fun e => by cases e)

/-- The function `typeToSqlBuf(datatype, value)`: the wire bytes, or the error. -/
def typeToSqlBuf (datatype : Int) (value : Value) : Except String (List Nat) :=
  if datatype = SYBINT1 then
    match value with
    | Value.uint8 v => Except.ok (writeUint 1 v)
    | _ => Except.error (convertError value "uint8")
  else if datatype = SYBINT2 then
    match value with
    | Value.int16 v => Except.ok (writeInt 2 v)
    | _ => Except.error (convertError value "int16")
  else if datatype = SYBINT4 then
    match value with
    | Value.int v => Except.ok (writeInt 4 (wrapS 32 v))
    | Value.int32 v => Except.ok (writeInt 4 v)
    | Value.int64 v => Except.ok (writeInt 4 (wrapS 32 v))
    | _ => Except.error (convertError value "int32")
  else if datatype = SYBINT8 then
    match value with
    | Value.int64 v => Except.ok (writeInt 8 v)
    | _ => Except.error (convertError value "int64")
  else if datatype = SYBREAL then
    match value with
    | Value.float32 v => Except.ok (writeUint 4 v.bits)
    | _ => Except.error (convertError value "float32")
  else if datatype = SYBFLT8 then
    match value with
    | Value.float64 v => Except.ok (writeUint 8 v.bits)
    | _ => Except.error (convertError value "float64")
  else if datatype = SYBBIT then
    match value with
    | Value.bool v => Except.ok (if v then [1] else [0])
    | _ => Except.error (convertError value "bool")
  else if datatype = SYBMONEY4 then
    match value with
    | Value.float64 v =>
      let intValue : Int := Float64.toInt32 (Float64.mul v (Float64.ofInt 10000))
      Except.ok (writeInt 4 intValue)
    | _ => Except.error (convertError value "float64")
  else if datatype = SYBMONEY then
    match value with
    | Value.float64 v =>
      let intValue : Int := Float64.toInt64 (Float64.mul v (Float64.ofInt 10000))
      let high : Int := wrapS 32 (intValue / 4294967296)
      let low : Nat := wrapU 32 (wrapS 64 (intValue - high))
      Except.ok (writeInt 4 high ++ writeUint 4 low)
    | _ => Except.error (convertError value "float64")
  else if datatype = SYBDATETIME then
    match value with
    | Value.time t =>
      let days : Int := Float64.toInt32 (Float64.div (Hours (t.Sub sqlStartTime)) (Float64.ofInt 24))
      let secs : Nat := wrapU 32
        (((t.Hour * 60 + t.Minute) * 60 + t.Second) * 300 + Int.tdiv t.Nanosecond 3333333)
      Except.ok (writeInt 4 days ++ writeUint 4 secs)
    | _ => Except.error (convertError value "time.Time")
  else if datatype = SYBDATETIME4 then
    match value with
    | Value.time t =>
      let days : Nat := Float64.toUint16 (Float64.div (Hours (t.Sub sqlStartTime)) (Float64.ofInt 24))
      let mins : Nat := wrapU 16 (t.Hour * 60 + t.Minute)
      Except.ok (writeUint 2 days ++ writeUint 2 mins)
    | _ => Except.error (convertError value "time.Time")
  else if datatype = SYBIMAGE ∨ datatype = SYBVARBINARY ∨ datatype = SYBBINARY
      ∨ datatype = XSYBVARBINARY then
    match value with
    | Value.bytes v => Except.ok (v ++ [0])
    | _ => Except.error (convertError value "[]byte")
  else
    match value with
    | Value.string v => Except.ok (v ++ [0])
    | _ => Except.error (convertError value "string")

/-! ## Notions used in the statements -/

/-- The scaled integer `int64(value * 10000)` the MONEY encoder starts from. -/
def moneyScaled (value : Float64) : Int :=
  Float64.toInt64 (Float64.mul value (Float64.ofInt 10000))

/-- The decoder's reconstruction `int64(high) * 4294967296 + int64(low)` from the
two words of an 8-byte MONEY field. -/
def moneyReconstruct (data : List Nat) : Int :=
  wrapS 32 ((leNat (data.take 4) : Nat) : Int) * 4294967296
    + ((leNat ((data.drop 4).take 4) : Nat) : Int)

/-- Nanoseconds from 1900-01-01 00:00:00 UTC to `t`. -/
def sinceStart (t : Time) : Int := (t.sec - sqlStartTime.sec) * 1000000000 + t.nsec

/-- The codes for which the decoder's switch has a case of its own. -/
def hasDecoderCase (tag : Int) : Bool :=
  decide (tag = SYBINT1 ∨ tag = SYBINT2 ∨ tag = SYBINT4 ∨ tag = SYBINT8 ∨ tag = SYBDATETIME
    ∨ tag = SYBDATETIME4 ∨ tag = SYBMONEY ∨ tag = SYBMONEY4 ∨ tag = SYBREAL ∨ tag = SYBFLT8
    ∨ tag = SYBBIT ∨ tag = SYBIMAGE ∨ tag = SYBVARBINARY ∨ tag = SYBBINARY)

/-- A code that reaches the decoder's `default` branch: CHAR, VARCHAR, NVARCHAR or
any code without a case. -/
def IsTextTag (tag : Int) : Prop :=
  tag = SYBCHAR ∨ tag = SYBVARCHAR ∨ tag = SYBNVARCHAR ∨ hasDecoderCase tag = false

/-- Whether a value has the Go type a tag asks for, as the encoder's contract lists
them: `uint8` for TINYINT, `int16` for SMALLINT, `int`, `int32` or `int64` for
INT, `int64` for BIGINT, `float32` for REAL, `float64` for FLOAT8, SMALLMONEY
and MONEY, `bool` for BIT, a time for DATETIME and SMALLDATETIME, a byte
sequence for the four binary tags, text for every other code. -/
def shapeRequired (tag : Int) (v : Value) : Bool :=
  if tag = SYBINT1 then
    match v with
    | Value.uint8 _ => true
    | _ => false
  else if tag = SYBINT2 then
    match v with
    | Value.int16 _ => true
    | _ => false
  else if tag = SYBINT4 then
    match v with
    | Value.int _ => true
    | Value.int32 _ => true
    | Value.int64 _ => true
    | _ => false
  else if tag = SYBINT8 then
    match v with
    | Value.int64 _ => true
    | _ => false
  else if tag = SYBREAL then
    match v with
    | Value.float32 _ => true
    | _ => false
  else if tag = SYBFLT8 ∨ tag = SYBMONEY4 ∨ tag = SYBMONEY then
    match v with
    | Value.float64 _ => true
    | _ => false
  else if tag = SYBBIT then
    match v with
    | Value.bool _ => true
    | _ => false
  else if tag = SYBDATETIME ∨ tag = SYBDATETIME4 then
    match v with
    | Value.time _ => true
    | _ => false
  else if tag = SYBIMAGE ∨ tag = SYBBINARY ∨ tag = SYBVARBINARY ∨ tag = XSYBVARBINARY then
    match v with
    | Value.bytes _ => true
    | _ => false
  else
    match v with
    | Value.string _ => true
    | _ => false

/-- The encoder's result is an error. -/
def isError (r : Except String (List Nat)) : Bool :=
  match r with
  | Except.error _ => true
  | Except.ok _ => false

/-- The text of the encoder's error, when there is one. -/
def errorText (r : Except String (List Nat)) : Option String :=
  match r with
  | Except.error e => some e
  | Except.ok _ => none

/-- The Go type name the encoder's error message ends with, by tag. -/
def wantedName (tag : Int) : String :=
  if tag = SYBINT1 then "uint8"
  else if tag = SYBINT2 then "int16"
  else if tag = SYBINT4 then "int32"
  else if tag = SYBINT8 then "int64"
  else if tag = SYBREAL then "float32"
  else if tag = SYBFLT8 ∨ tag = SYBMONEY4 ∨ tag = SYBMONEY then "float64"
  else if tag = SYBBIT then "bool"
  else if tag = SYBDATETIME ∨ tag = SYBDATETIME4 then "time.Time"
  else if tag = SYBIMAGE ∨ tag = SYBBINARY ∨ tag = SYBVARBINARY ∨ tag = XSYBVARBINARY then
    "[]byte"
  else "string"

/-- The declared wire width of a fixed-width tag. -/
def declaredWidth (tag : Int) : Option Nat :=
  if tag = SYBINT1 then some 1
  else if tag = SYBINT2 then some 2
  else if tag = SYBINT4 ∨ tag = SYBDATETIME4 ∨ tag = SYBMONEY4 ∨ tag = SYBREAL then some 4
  else if tag = SYBINT8 ∨ tag = SYBDATETIME ∨ tag = SYBMONEY ∨ tag = SYBFLT8 then some 8
  else none

/-- A buffer that is well formed for a tag: of the declared width for a fixed-width
tag, of at least one byte for BIT, IMAGE, BINARY and VARBINARY, and holding a
zero byte for every other code. -/
def WellFormed (tag : Int) (data : List Nat) : Prop :=
  match declaredWidth tag with
  | some w => data.length = w
  | none =>
    if tag = SYBBIT ∨ tag = SYBIMAGE ∨ tag = SYBBINARY ∨ tag = SYBVARBINARY then
      1 ≤ data.length
    else 0 ∈ data

instance (tag : Int) (data : List Nat) : Decidable (WellFormed tag data) := by
  unfold WellFormed; split <;> infer_instance

/-- The day field of an 8-byte DATETIME buffer: bytes 0..3 as a little-endian signed
32-bit integer. -/
def dayField (data : List Nat) : Int := wrapS 32 ((leNat (data.take 4) : Nat) : Int)

/-- The tick field of an 8-byte DATETIME buffer: bytes 4..7 as a little-endian
unsigned 32-bit integer. -/
def tickField (data : List Nat) : Nat := leNat ((data.drop 4).take 4)

/-- The encoder's MONEY split of the scaled integer (`convert.go`, the three lines
after `intValue := int64(typedValue * 10000)`): `high := int32(intValue >> 32)`,
`low := uint32(intValue - int64(high))`, written as a signed and an unsigned
little-endian word. -/
def moneySplit (intValue : Int) : List Nat :=
  writeInt 4 (wrapS 32 (intValue / 4294967296))
    ++ writeUint 4 (wrapU 32 (wrapS 64 (intValue - wrapS 32 (intValue / 4294967296))))

/-- A code that is text for the encoder and the decoder alike: CHAR, VARCHAR,
NVARCHAR or a code for which neither switch has a case (the encoder has one
more case than the decoder, the binary tag 165). -/
def IsFramedTextTag (tag : Int) : Prop := IsTextTag tag ∧ tag ≠ XSYBVARBINARY

instance (tag : Int) : Decidable (IsTextTag tag) := by
  unfold IsTextTag; infer_instance

instance (tag : Int) : Decidable (IsFramedTextTag tag) := by
  unfold IsFramedTextTag; infer_instance

/-- The declared number of wire bytes of the fixed-width tags: TINYINT 1, SMALLINT 2,
INT 4, BIGINT 8, REAL 4, FLOAT8 8, BIT 1, SMALLMONEY 4, MONEY 8, DATETIME 8,
SMALLDATETIME 4. -/
def wireWidth (tag : Int) : Option Nat :=
  if tag = SYBINT1 ∨ tag = SYBBIT then some 1
  else if tag = SYBINT2 then some 2
  else if tag = SYBINT4 ∨ tag = SYBREAL ∨ tag = SYBMONEY4 ∨ tag = SYBDATETIME4 then some 4
  else if tag = SYBINT8 ∨ tag = SYBFLT8 ∨ tag = SYBMONEY ∨ tag = SYBDATETIME then some 8
  else none

/-! ## The bind-type mapper -/

/-- The constants of the C header `sybdb.h` that `dbbindtype` names and the Go
constant block does not repeat: three type codes and the bind identifiers.
The header is not among the sources, so the function takes them as given. -/
structure Sybdb where
  SYBTEXT : Int
  SYBDECIMAL : Int
  SYBNUMERIC : Int
  BINARYBIND : Int
  BITBIND : Int
  NTBSTRINGBIND : Int
  DATETIMEBIND : Int
  SMALLDATETIMEBIND : Int
  DECIMALBIND : Int
  NUMERICBIND : Int
  FLT8BIND : Int
  REALBIND : Int
  TINYBIND : Int
  SMALLBIND : Int
  INTBIND : Int
  BIGINTBIND : Int
  MONEYBIND : Int
  SMALLMONEYBIND : Int

/-- The function `dbbindtype(datatype)`. -/
def dbbindtype (c : Sybdb) (datatype : Int) : Int :=
  if datatype = SYBIMAGE ∨ datatype = SYBVARBINARY ∨ datatype = SYBBINARY then c.BINARYBIND
  else if datatype = SYBBIT then c.BITBIND
  else if datatype = c.SYBTEXT ∨ datatype = SYBVARCHAR ∨ datatype = SYBCHAR then
    c.NTBSTRINGBIND
  else if datatype = SYBDATETIME then c.DATETIMEBIND
  else if datatype = SYBDATETIME4 then c.SMALLDATETIMEBIND
  else if datatype = c.SYBDECIMAL then c.DECIMALBIND
  else if datatype = c.SYBNUMERIC then c.NUMERICBIND
  else if datatype = SYBFLT8 then c.FLT8BIND
  else if datatype = SYBREAL then c.REALBIND
  else if datatype = SYBINT1 then c.TINYBIND
  else if datatype = SYBINT2 then c.SMALLBIND
  else if datatype = SYBINT4 then c.INTBIND
  else if datatype = SYBINT8 then c.BIGINTBIND
  else if datatype = SYBMONEY then c.MONEYBIND
  else if datatype = SYBMONEY4 then c.SMALLMONEYBIND
  else c.NTBSTRINGBIND

/-- The codes the switch of `dbbindtype` lists. -/
def bindListed (c : Sybdb) (tag : Int) : Prop :=
  tag = SYBIMAGE ∨ tag = SYBVARBINARY ∨ tag = SYBBINARY ∨ tag = SYBBIT ∨ tag = c.SYBTEXT
    ∨ tag = SYBVARCHAR ∨ tag = SYBCHAR ∨ tag = SYBDATETIME ∨ tag = SYBDATETIME4
    ∨ tag = c.SYBDECIMAL ∨ tag = c.SYBNUMERIC ∨ tag = SYBFLT8 ∨ tag = SYBREAL ∨ tag = SYBINT1
    ∨ tag = SYBINT2 ∨ tag = SYBINT4 ∨ tag = SYBINT8 ∨ tag = SYBMONEY ∨ tag = SYBMONEY4

/-- The three header codes are pairwise different and different from the other case
constants of the switch, as the Go compiler demands of the cases of a switch. -/
def Sybdb.Distinct (c : Sybdb) : Prop :=
  c.SYBTEXT ≠ c.SYBDECIMAL ∧ c.SYBTEXT ≠ c.SYBNUMERIC ∧ c.SYBDECIMAL ≠ c.SYBNUMERIC
    ∧ ∀ x, (x = c.SYBTEXT ∨ x = c.SYBDECIMAL ∨ x = c.SYBNUMERIC) →
      x ≠ SYBIMAGE ∧ x ≠ SYBVARBINARY ∧ x ≠ SYBBINARY ∧ x ≠ SYBBIT ∧ x ≠ SYBVARCHAR
        ∧ x ≠ SYBCHAR ∧ x ≠ SYBDATETIME ∧ x ≠ SYBDATETIME4 ∧ x ≠ SYBFLT8 ∧ x ≠ SYBREAL
        ∧ x ≠ SYBINT1 ∧ x ≠ SYBINT2 ∧ x ≠ SYBINT4 ∧ x ≠ SYBINT8 ∧ x ≠ SYBMONEY
        ∧ x ≠ SYBMONEY4

/-- A rational that a binary64 holds exactly: `m * 2^e` with `m < 2^53` and `e` in
the exponent range. -/
def Float64.Repr53 (y : ℚ) : Prop :=
  ∃ (m : ℕ) (e : ℤ), m < 2 ^ 53 ∧ -1074 ≤ e ∧ e ≤ 971 ∧ y = (m : ℚ) * (2 : ℚ) ^ e

/-- The pattern `f` is a finite non-negative number with `lo ≤ f ≤ hi`. -/
def Float64.Between (f : Float64) (lo hi : ℚ) : Prop :=
  ∃ n d : ℕ, f.val = FVal.fin false n d ∧ 0 < d ∧ lo ≤ (n : ℚ) / d ∧ (n : ℚ) / d ≤ hi

/-- The tick count in exact 300ths of a second: the seconds since midnight times 300
plus `floor (nanosecond * 300 / 10^9)`. -/
def exactTicks (t : Time) : Int :=
  ((t.Hour * 60 + t.Minute) * 60 + t.Second) * 300 + t.Nanosecond * 300 / 1000000000

/-- The whole number of days from 1900-01-01 to `t`, truncated toward zero. -/
def wholeDays (t : Time) : Int := Int.tdiv (sinceStart t) 86400000000000

/-! ## Lemmas on machine integers and little-endian fields -/

theorem wrapU_cast (w : Nat) (i : Int) : ((wrapU w i : Nat) : Int) = i % (2 : Int) ^ w := by
  unfold wrapU
  exact Int.toNat_of_nonneg (Int.emod_nonneg _ (pow_ne_zero _ (by norm_num)))

theorem wrapU_lt (w : Nat) (i : Int) : wrapU w i < 2 ^ w := by
  have h := Int.emod_lt_of_pos i (show (0 : Int) < (2 : Int) ^ w by positivity)
  rw [← wrapU_cast] at h
  exact_mod_cast h

theorem wrapU_natCast (w n : Nat) : wrapU w (n : Int) = n % 2 ^ w := by
  have h := wrapU_cast w n
  have h2 : ((n : Int) % (2 : Int) ^ w) = ((n % 2 ^ w : Nat) : Int) := by push_cast; rfl
  rw [h2] at h
  exact_mod_cast h

theorem wrapS_wrapU (w : Nat) (i : Int) : wrapS w (wrapU w i) = wrapS w i := by
  unfold wrapS
  rw [wrapU_cast, Int.emod_emod]

theorem wrapS_of_range (w : Nat) (hw : 0 < w) (i : Int)
    (h1 : -(2 : Int) ^ (w - 1) ≤ i) (h2 : i < (2 : Int) ^ (w - 1)) : wrapS w i = i := by
  obtain ⟨k, rfl⟩ : ∃ k, w = k + 1 := ⟨w - 1, by omega⟩
  simp only [Nat.add_sub_cancel] at h1 h2
  have hp : (2 : Int) ^ (k + 1) = 2 * (2 : Int) ^ k := by ring
  have hk : (0 : Int) < (2 : Int) ^ k := by positivity
  unfold wrapS
  simp only [Nat.add_sub_cancel, hp]
  by_cases h0 : 0 ≤ i
  · have e : i % (2 * (2 : Int) ^ k) = i := Int.emod_eq_of_lt h0 (by omega)
    rw [e, if_pos h2]
  · have e : i % (2 * (2 : Int) ^ k) = i + 2 * (2 : Int) ^ k := by
      rw [← Int.add_mul_emod_self_left i (2 * (2 : Int) ^ k) 1, mul_one]
      exact Int.emod_eq_of_lt (by omega) (by omega)
    rw [e, if_neg (by omega)]
    omega

theorem leBytes_length (n v : Nat) : (leBytes n v).length = n := by
  induction n generalizing v with
  | zero => rfl
  | succ n ih => simp [leBytes, ih]

theorem leNat_leBytes (n v : Nat) : leNat (leBytes n v) = v % 256 ^ n := by
  induction n generalizing v with
  | zero => simp [leBytes, leNat, Nat.mod_one]
  | succ n ih => rw [pow_succ', Nat.mod_mul]; simp [leBytes, leNat, ih]

theorem pow_256 (n : Nat) : 256 ^ n = 2 ^ (8 * n) := by
  rw [pow_mul]; norm_num

theorem binaryRead_leBytes (n v : Nat) (rest : List Nat) :
    binaryRead n (leBytes n v ++ rest) = (v % 2 ^ (8 * n), rest) := by
  unfold binaryRead
  have hl := leBytes_length n v
  rw [if_pos (by simp [hl])]
  rw [List.take_left' hl, List.drop_left' hl, leNat_leBytes, pow_256, Nat.mod_mod]

theorem binaryRead_writeInt (n : Nat) (v : Int) (rest : List Nat) :
    binaryRead n (writeInt n v ++ rest) = (wrapU (8 * n) v, rest) := by
  unfold writeInt
  rw [binaryRead_leBytes, Nat.mod_eq_of_lt (wrapU_lt _ _)]

theorem binaryRead_writeUint (n v : Nat) (rest : List Nat) :
    binaryRead n (writeUint n v ++ rest) = (v % 2 ^ (8 * n), rest) := by
  unfold writeUint
  rw [binaryRead_leBytes]

/-! ## Integer tags -/

/-- Decoding what `writeInt` wrote under the 2-, 4- or 8-byte integer tag gives
the value reduced to that width. -/
theorem sqlBufToType_writeInt (v : Int) :
    sqlBufToType SYBINT2 (writeInt 2 v) = some (Value.int16 (wrapS 16 v))
    ∧ sqlBufToType SYBINT4 (writeInt 4 v) = some (Value.int32 (wrapS 32 v))
    ∧ sqlBufToType SYBINT8 (writeInt 8 v) = some (Value.int64 (wrapS 64 v)) := by
  have h2 := binaryRead_writeInt 2 v []
  have h4 := binaryRead_writeInt 4 v []
  have h8 := binaryRead_writeInt 8 v []
  simp only [List.append_nil] at h2 h4 h8
  refine ⟨?_, ?_, ?_⟩
  · simp [sqlBufToType, h2, wrapS_wrapU]
  · simp [sqlBufToType, h4, wrapS_wrapU]
  · simp [sqlBufToType, h8, wrapS_wrapU]

/-- C1. Integer round trip: a `uint8` under TINYINT, an `int16` under SMALLINT, an
`int32` under INT and an `int64` under BIGINT are encoded without error, and
decoding the bytes gives back a value of the same Go type equal to the
original. -/
theorem int_roundtrip (a : Nat) (b c d : Int) (ha : a < 256)
    (hb : -(2 : Int) ^ 15 ≤ b ∧ b < (2 : Int) ^ 15)
    (hc : -(2 : Int) ^ 31 ≤ c ∧ c < (2 : Int) ^ 31)
    (hd : -(2 : Int) ^ 63 ≤ d ∧ d < (2 : Int) ^ 63) :
    (∃ bs, typeToSqlBuf SYBINT1 (Value.uint8 a) = Except.ok bs
        ∧ sqlBufToType SYBINT1 bs = some (Value.uint8 a))
    ∧ (∃ bs, typeToSqlBuf SYBINT2 (Value.int16 b) = Except.ok bs
        ∧ sqlBufToType SYBINT2 bs = some (Value.int16 b))
    ∧ (∃ bs, typeToSqlBuf SYBINT4 (Value.int32 c) = Except.ok bs
        ∧ sqlBufToType SYBINT4 bs = some (Value.int32 c))
    ∧ (∃ bs, typeToSqlBuf SYBINT8 (Value.int64 d) = Except.ok bs
        ∧ sqlBufToType SYBINT8 bs = some (Value.int64 d)) := by
  obtain ⟨h2, h4, h8⟩ := sqlBufToType_writeInt b, sqlBufToType_writeInt c, sqlBufToType_writeInt d
  refine ⟨⟨writeUint 1 a, by simp [typeToSqlBuf], ?_⟩, ⟨writeInt 2 b, by simp [typeToSqlBuf], ?_⟩,
    ⟨writeInt 4 c, by simp [typeToSqlBuf], ?_⟩, ⟨writeInt 8 d, by simp [typeToSqlBuf], ?_⟩⟩
  · have h1 := binaryRead_writeUint 1 a []
    simp only [List.append_nil] at h1
    simp [sqlBufToType, h1]
    omega
  · rw [h2.1, wrapS_of_range 16 (by norm_num) b hb.1 hb.2]
  · rw [h4.2.1, wrapS_of_range 32 (by norm_num) c hc.1 hc.2]
  · rw [h8.2.2, wrapS_of_range 64 (by norm_num) d hd.1 hd.2]

/-- C1, at concrete values. -/
theorem int_roundtrip_witness :
    (∃ bs, typeToSqlBuf SYBINT1 (Value.uint8 200) = Except.ok bs
        ∧ sqlBufToType SYBINT1 bs = some (Value.uint8 200))
    ∧ (∃ bs, typeToSqlBuf SYBINT2 (Value.int16 (-2)) = Except.ok bs
        ∧ sqlBufToType SYBINT2 bs = some (Value.int16 (-2)))
    ∧ (∃ bs, typeToSqlBuf SYBINT4 (Value.int32 (-70000)) = Except.ok bs
        ∧ sqlBufToType SYBINT4 bs = some (Value.int32 (-70000)))
    ∧ (∃ bs, typeToSqlBuf SYBINT8 (Value.int64 (2 ^ 40)) = Except.ok bs
        ∧ sqlBufToType SYBINT8 bs = some (Value.int64 (2 ^ 40))) :=
  int_roundtrip 200 (-2) (-70000) (2 ^ 40) (by decide) (by decide) (by decide) (by decide)

/-! ## MONEY -/

/-- C2, at the money values `-1.0` and `500000.0`: the scaled integers are `-10000`
and `5000000000`, the encoder writes high words `-1` and `1` with low words
`uint32(s - high)`, and the decoder's reconstruction of those bytes is `-9999`
and `4999999999`: the result is `-0.9999` and `499999.9999`. -/
theorem money_split_off_by_high :
    moneyScaled ⟨0xBFF0000000000000⟩ = -10000
    ∧ typeToSqlBuf SYBMONEY (Value.float64 ⟨0xBFF0000000000000⟩)
        = Except.ok [255, 255, 255, 255, 241, 216, 255, 255]
    ∧ moneyReconstruct [255, 255, 255, 255, 241, 216, 255, 255] = -9999
    ∧ sqlBufToType SYBMONEY [255, 255, 255, 255, 241, 216, 255, 255]
        = some (Value.float64 (Float64.div (Float64.ofInt (-9999)) (Float64.ofInt 10000)))
    ∧ moneyScaled ⟨0x411E848000000000⟩ = 5000000000
    ∧ typeToSqlBuf SYBMONEY (Value.float64 ⟨0x411E848000000000⟩)
        = Except.ok [1, 0, 0, 0, 255, 241, 5, 42]
    ∧ moneyReconstruct [1, 0, 0, 0, 255, 241, 5, 42] = 4999999999
    ∧ sqlBufToType SYBMONEY [1, 0, 0, 0, 255, 241, 5, 42]
        = some (Value.float64 (Float64.div (Float64.ofInt 4999999999) (Float64.ofInt 10000))) := by
  decide!

/-! ## DATETIME -/

/-- C3, at three instants.  Noon of 1899-12-31 (half a day before the start) is
written with day field `0` and decoded as noon of 1900-01-01, a day late.
The last nanosecond of the 200th day is written with day field `200` and a
full day of ticks and decoded a day and a nanosecond late.  Midnight
200000 days after the start is written with day field `106751`. -/
theorem datetime_roundtrip_off :
    typeToSqlBuf SYBDATETIME (Value.time ⟨59926608000 - 43200, 0⟩)
        = Except.ok [0, 0, 0, 0, 0, 193, 197, 0]
    ∧ sqlBufToType SYBDATETIME [0, 0, 0, 0, 0, 193, 197, 0]
        = some (Value.time ⟨59926608000 + 43200, 0⟩)
    ∧ sinceStart ⟨59926608000 + 43200, 0⟩ - sinceStart ⟨59926608000 - 43200, 0⟩
        = 86400 * 1000000000
    ∧ typeToSqlBuf SYBDATETIME (Value.time ⟨59926608000 + 200 * 86400 - 1, 999999999⟩)
        = Except.ok [200, 0, 0, 0, 0, 130, 139, 1]
    ∧ sqlBufToType SYBDATETIME [200, 0, 0, 0, 0, 130, 139, 1]
        = some (Value.time ⟨59926608000 + 201 * 86400, 0⟩)
    ∧ typeToSqlBuf SYBDATETIME (Value.time ⟨59926608000 + 200000 * 86400, 0⟩)
        = Except.ok [255, 160, 1, 0, 0, 0, 0, 0]
    ∧ sqlBufToType SYBDATETIME [255, 160, 1, 0, 0, 0, 0, 0]
        = some (Value.time ⟨59926608000 + 106751 * 86400, 0⟩) := by
  decide!

/-! ## Binary tags -/

/-- C4. Binary framing round trip: under IMAGE, BINARY and VARBINARY every byte
sequence is encoded as itself followed by one zero byte, and decoding that
gives the sequence back. -/
theorem binary_roundtrip (tag : Int) (b : List Nat)
    (htag : tag = SYBIMAGE ∨ tag = SYBBINARY ∨ tag = SYBVARBINARY) :
    typeToSqlBuf tag (Value.bytes b) = Except.ok (b ++ [0])
    ∧ sqlBufToType tag (b ++ [0]) = some (Value.bytes b) := by
  rcases htag with rfl | rfl | rfl <;>
    simp [typeToSqlBuf, sqlBufToType, sliceTo]

/-- C4, for the empty sequence and for one holding zero bytes. -/
theorem binary_roundtrip_witness :
    (typeToSqlBuf SYBIMAGE (Value.bytes []) = Except.ok ([] ++ [0])
      ∧ sqlBufToType SYBIMAGE ([] ++ [0]) = some (Value.bytes []))
    ∧ (typeToSqlBuf SYBVARBINARY (Value.bytes [1, 0, 2, 0]) = Except.ok ([1, 0, 2, 0] ++ [0])
      ∧ sqlBufToType SYBVARBINARY ([1, 0, 2, 0] ++ [0]) = some (Value.bytes [1, 0, 2, 0])) :=
  ⟨binary_roundtrip SYBIMAGE [] (Or.inl rfl),
   binary_roundtrip SYBVARBINARY [1, 0, 2, 0] (Or.inr (Or.inr rfl))⟩

/-- C5, at the byte sequence `1 0 2`: the encoder frames it under tag 165 like the
other binary tags, the decoder has no case for 165 and returns the text before
the first zero byte; VARBINARY (37) returns the bytes; a buffer without a
zero byte panics under 165. -/
theorem xsybvarbinary_decoded_as_text :
    typeToSqlBuf XSYBVARBINARY (Value.bytes [1, 0, 2]) = Except.ok [1, 0, 2, 0]
    ∧ sqlBufToType XSYBVARBINARY [1, 0, 2, 0] = some (Value.string [1])
    ∧ sqlBufToType SYBVARBINARY [1, 0, 2, 0] = some (Value.bytes [1, 0, 2])
    ∧ sqlBufToType XSYBVARBINARY [1, 2] = none := by
  decide

/-! ## Text tags -/

theorem sqlBufToType_default (tag : Int) (d : List Nat) (htag : IsTextTag tag) :
    sqlBufToType tag d = (sliceTo d (indexZero d)).map Value.string := by
  have h : hasDecoderCase tag = false := by
    rcases htag with rfl | rfl | rfl | h
    · decide
    · decide
    · decide
    · exact h
  simp only [hasDecoderCase, decide_eq_false_iff_not, not_or] at h
  obtain ⟨h1, h2, h3, h4, h5, h6, h7, h8, h9, h10, h11, h12, h13, h14⟩ := h
  simp [sqlBufToType, h1, h2, h3, h4, h5, h6, h7, h8, h9, h10, h11, h12, h13, h14]

theorem indexZero_append (pre rest : List Nat) (h : 0 ∉ pre) :
    indexZero (pre ++ 0 :: rest) = (pre.length : Int) := by
  induction pre with
  | nil => simp [indexZero]
  | cons b bs ih =>
    have hb : b ≠ 0 := fun e => h (by simp [e])
    have hbs : 0 ∉ bs := fun e => h (by simp [e])
    have ih2 := ih hbs
    show indexZero (b :: (bs ++ 0 :: rest)) = _
    simp only [indexZero, if_neg hb, ih2, List.length_cons]
    rw [if_neg (by omega)]
    push_cast
    rfl

theorem split_first_zero (d : List Nat) (h : 0 ∈ d) :
    ∃ pre rest, d = pre ++ 0 :: rest ∧ 0 ∉ pre := by
  induction d with
  | nil => simp at h
  | cons b bs ih =>
    by_cases hb : b = 0
    · exact ⟨[], bs, by simp [hb], by simp⟩
    · have hbs : 0 ∈ bs := by
        rcases List.mem_cons.mp h with e | e
        · exact absurd e.symm hb
        · exact e
      obtain ⟨pre, rest, e, hp⟩ := ih hbs
      refine ⟨b :: pre, rest, by simp [e], ?_⟩
      intro hm
      rcases List.mem_cons.mp hm with e2 | e2
      · exact hb e2.symm
      · exact hp e2

theorem sqlBufToType_text (tag : Int) (pre rest : List Nat) (htag : IsTextTag tag)
    (hpre : 0 ∉ pre) : sqlBufToType tag (pre ++ 0 :: rest) = some (Value.string pre) := by
  rw [sqlBufToType_default tag _ htag, indexZero_append pre rest hpre]
  have hle : (0 : Int) ≤ (rest.length : Int) + 1 := by omega
  simp [sliceTo, hle]

/-- C6. Text decoding stops at the first zero byte: under CHAR, VARCHAR, NVARCHAR and
every code without a decoder case of its own, a buffer holding a zero byte
splits as `pre`, a zero byte, `rest`, with no zero byte in `pre`, and decodes
to the text `pre`, whatever `rest` is. -/
theorem text_decode_first_zero (tag : Int) (d : List Nat) (htag : IsTextTag tag)
    (hz : 0 ∈ d) :
    ∃ pre rest, d = pre ++ 0 :: rest ∧ 0 ∉ pre
      ∧ sqlBufToType tag d = some (Value.string pre) := by
  obtain ⟨pre, rest, e, hp⟩ := split_first_zero d hz
  exact ⟨pre, rest, e, hp, by rw [e]; exact sqlBufToType_text tag pre rest htag hp⟩

/-- C6, for the buffer `"ab\0cd"` under VARCHAR, which decodes to `"ab"`. -/
theorem text_decode_first_zero_witness :
    (∃ pre rest, [97, 98, 0, 99, 100] = pre ++ 0 :: rest ∧ 0 ∉ pre
      ∧ sqlBufToType SYBVARCHAR [97, 98, 0, 99, 100] = some (Value.string pre))
    ∧ sqlBufToType SYBVARCHAR [97, 98, 0, 99, 100] = some (Value.string [97, 98]) :=
  ⟨text_decode_first_zero SYBVARCHAR [97, 98, 0, 99, 100] (Or.inr (Or.inl rfl)) (by decide),
   by decide⟩

/-! ## Lenient INT -/

theorem wrapU_wrapS (w : Nat) (i : Int) : wrapU w (wrapS w i) = wrapU w i := by
  have h : wrapS w i % (2 : Int) ^ w = i % (2 : Int) ^ w := by
    unfold wrapS
    split
    · exact Int.emod_emod _ _
    · rw [Int.sub_emod, Int.emod_self, sub_zero, Int.emod_emod, Int.emod_emod]
  unfold wrapU
  rw [h]

/-- C7. Lenient INT encode: an `int`, an `int32` or an `int64` `v` is encoded under INT
without error as the four little-endian bytes of `v mod 2^32`; decoding them
gives the `int32` with the same low 32 bits, which is `v` itself when
`-2^31 ≤ v < 2^31`. -/
theorem int4_lenient (v : Int) :
    typeToSqlBuf SYBINT4 (Value.int v) = Except.ok (leBytes 4 (wrapU 32 v))
    ∧ typeToSqlBuf SYBINT4 (Value.int32 v) = Except.ok (leBytes 4 (wrapU 32 v))
    ∧ typeToSqlBuf SYBINT4 (Value.int64 v) = Except.ok (leBytes 4 (wrapU 32 v))
    ∧ wrapU 32 v = (v % 2 ^ 32).toNat
    ∧ sqlBufToType SYBINT4 (leBytes 4 (wrapU 32 v)) = some (Value.int32 (wrapS 32 v))
    ∧ (-(2 : Int) ^ 31 ≤ v → v < (2 : Int) ^ 31 → wrapS 32 v = v) := by
  refine ⟨?_, ?_, ?_, rfl, ?_, ?_⟩
  · simp [typeToSqlBuf, writeInt, wrapU_wrapS]
  · simp [typeToSqlBuf, writeInt]
  · simp [typeToSqlBuf, writeInt, wrapU_wrapS]
  · exact (sqlBufToType_writeInt v).2.1
  · intro h1 h2
    exact wrapS_of_range 32 (by norm_num) v h1 h2

/-- C7, for the value `5` in the three integer types, and for `2^31`, which wraps. -/
theorem int4_lenient_witness :
    (typeToSqlBuf SYBINT4 (Value.int 5) = Except.ok (leBytes 4 (wrapU 32 5))
      ∧ typeToSqlBuf SYBINT4 (Value.int32 5) = Except.ok (leBytes 4 (wrapU 32 5))
      ∧ typeToSqlBuf SYBINT4 (Value.int64 5) = Except.ok (leBytes 4 (wrapU 32 5))
      ∧ wrapU 32 5 = ((5 : Int) % 2 ^ 32).toNat
      ∧ sqlBufToType SYBINT4 (leBytes 4 (wrapU 32 5)) = some (Value.int32 (wrapS 32 5))
      ∧ (-(2 : Int) ^ 31 ≤ 5 → (5 : Int) < (2 : Int) ^ 31 → wrapS 32 5 = 5))
    ∧ wrapS 32 5 = 5 ∧ wrapS 32 (2 ^ 31) = -(2 ^ 31) :=
  ⟨int4_lenient 5, by decide, by decide⟩

/-! ## Type mismatch -/

theorem isError_eq_not_shape (tag : Int) (v : Value) :
    isError (typeToSqlBuf tag v) = !shapeRequired tag v := by
  by_cases h0 : tag = SYBINT1
  · subst h0
    cases v <;> rfl
  by_cases h1 : tag = SYBINT2
  · subst h1
    cases v <;> rfl
  by_cases h2 : tag = SYBINT4
  · subst h2
    cases v <;> rfl
  by_cases h3 : tag = SYBINT8
  · subst h3
    cases v <;> rfl
  by_cases h4 : tag = SYBREAL
  · subst h4
    cases v <;> rfl
  by_cases h5 : tag = SYBFLT8
  · subst h5
    cases v <;> rfl
  by_cases h6 : tag = SYBBIT
  · subst h6
    cases v <;> rfl
  by_cases h7 : tag = SYBMONEY4
  · subst h7
    cases v <;> rfl
  by_cases h8 : tag = SYBMONEY
  · subst h8
    cases v <;> rfl
  by_cases h9 : tag = SYBDATETIME
  · subst h9
    cases v <;> rfl
  by_cases h10 : tag = SYBDATETIME4
  · subst h10
    cases v <;> rfl
  by_cases h11 : tag = SYBIMAGE
  · subst h11
    cases v <;> rfl
  by_cases h12 : tag = SYBVARBINARY
  · subst h12
    cases v <;> rfl
  by_cases h13 : tag = SYBBINARY
  · subst h13
    cases v <;> rfl
  by_cases h14 : tag = XSYBVARBINARY
  · subst h14
    cases v <;> rfl
  · simp only [typeToSqlBuf, shapeRequired, h0, h1, h2, h3, h4, h5, h6, h7, h8, h9, h10, h11, h12, h13, h14, if_false, false_or]
    cases v <;> rfl

theorem errorText_eq (tag : Int) (v : Value) :
    errorText (typeToSqlBuf tag v)
      = if shapeRequired tag v then none else some (convertError v (wantedName tag)) := by
  by_cases h0 : tag = SYBINT1
  · subst h0
    cases v <;> rfl
  by_cases h1 : tag = SYBINT2
  · subst h1
    cases v <;> rfl
  by_cases h2 : tag = SYBINT4
  · subst h2
    cases v <;> rfl
  by_cases h3 : tag = SYBINT8
  · subst h3
    cases v <;> rfl
  by_cases h4 : tag = SYBREAL
  · subst h4
    cases v <;> rfl
  by_cases h5 : tag = SYBFLT8
  · subst h5
    cases v <;> rfl
  by_cases h6 : tag = SYBBIT
  · subst h6
    cases v <;> rfl
  by_cases h7 : tag = SYBMONEY4
  · subst h7
    cases v <;> rfl
  by_cases h8 : tag = SYBMONEY
  · subst h8
    cases v <;> rfl
  by_cases h9 : tag = SYBDATETIME
  · subst h9
    cases v <;> rfl
  by_cases h10 : tag = SYBDATETIME4
  · subst h10
    cases v <;> rfl
  by_cases h11 : tag = SYBIMAGE
  · subst h11
    cases v <;> rfl
  by_cases h12 : tag = SYBVARBINARY
  · subst h12
    cases v <;> rfl
  by_cases h13 : tag = SYBBINARY
  · subst h13
    cases v <;> rfl
  by_cases h14 : tag = XSYBVARBINARY
  · subst h14
    cases v <;> rfl
  · simp only [typeToSqlBuf, shapeRequired, wantedName, h0, h1, h2, h3, h4, h5, h6, h7, h8, h9, h10, h11, h12, h13, h14, if_false, false_or]
    cases v <;> rfl

/-- C8. The encoder fails exactly when the value does not have the Go type the tag
asks for, and the error is then the type-mismatch message naming the type of
the value and the type wanted; text under SMALLINT and a `float64` under INT
fail. -/
theorem encode_error_iff_shape (tag : Int) (v : Value) :
    (isError (typeToSqlBuf tag v) = true ↔ shapeRequired tag v = false)
    ∧ (∀ e, typeToSqlBuf tag v = Except.error e → e = convertError v (wantedName tag))
    ∧ (∀ s, typeToSqlBuf SYBINT2 (Value.string s)
        = Except.error "Could not convert string to int16.")
    ∧ (∀ f, typeToSqlBuf SYBINT4 (Value.float64 f)
        = Except.error "Could not convert float64 to int32.") := by
  refine ⟨?_, ?_, fun s => rfl, fun f => rfl⟩
  · rw [isError_eq_not_shape]
    cases shapeRequired tag v <;> simp
  · intro e he
    have h := errorText_eq tag v
    rw [he] at h
    simp only [errorText] at h
    split at h
    · exact absurd h (by simp)
    · exact Option.some.inj h

/-- C8, for a text value under SMALLINT. -/
theorem encode_error_iff_shape_witness :
    isError (typeToSqlBuf SYBINT2 (Value.string [97])) = true
    ∧ typeToSqlBuf SYBINT2 (Value.string [97])
        = Except.error (convertError (Value.string [97]) (wantedName SYBINT2)) :=
  ⟨(encode_error_iff_shape SYBINT2 (Value.string [97])).1.mpr (by decide),
   congrArg Except.error
    ((encode_error_iff_shape SYBINT2 (Value.string [97])).2.1
      "Could not convert string to int16." (by decide))⟩

/-! ## Decoder totality -/

/-- C9. Decoder totality on well-formed input: the decoder returns a value, that is,
it reaches no index or slice out of range. -/
theorem decode_total (tag : Int) (data : List Nat) (h : WellFormed tag data) :
    ∃ v, sqlBufToType tag data = some v := by
  by_cases hc : hasDecoderCase tag = true
  · simp only [hasDecoderCase, decide_eq_true_eq] at hc
    rcases hc with h1 | h1 | h1 | h1 | h1 | h1 | h1 | h1 | h1 | h1 | h1 | h1 | h1 | h1 <;>
      subst h1
    case _ | _ | _ | _ | _ | _ | _ | _ | _ | _ => exact ⟨_, rfl⟩
    all_goals
      have hl : 1 ≤ data.length := h
      cases data with
      | nil => simp at hl
      | cons b bs => simp [sqlBufToType, sliceTo]
  · have hf : hasDecoderCase tag = false := by simpa using hc
    have hc2 := hf
    simp only [hasDecoderCase, decide_eq_false_iff_not, not_or] at hc2
    obtain ⟨h1, h2, h3, h4, h5, h6, h7, h8, h9, h10, h11, h12, h13, h14⟩ := hc2
    have hz : 0 ∈ data := by
      simpa [WellFormed, declaredWidth, h1, h2, h3, h4, h5, h6, h7, h8, h9, h10, h11, h12,
        h13, h14] using h
    obtain ⟨pre, rest, e, hp⟩ := split_first_zero data hz
    exact ⟨Value.string pre, by
      rw [e]; exact sqlBufToType_text tag pre rest (Or.inr (Or.inr (Or.inr hf))) hp⟩

/-- C9, for a two-byte SMALLINT field, a one-byte BINARY buffer and a text buffer. -/
theorem decode_total_witness :
    (∃ v, sqlBufToType SYBINT2 [254, 255] = some v)
    ∧ (∃ v, sqlBufToType SYBBINARY [0] = some v)
    ∧ (∃ v, sqlBufToType SYBCHAR [97, 0] = some v) :=
  ⟨decode_total SYBINT2 [254, 255] (by decide), decode_total SYBBINARY [0] (by decide),
   decode_total SYBCHAR [97, 0] (by decide)⟩

/-! ## DATETIME decoding -/

theorem leNat_lt (bs : List Nat) (h : IsBytes bs) : leNat bs < 256 ^ bs.length := by
  induction bs with
  | nil => simp [leNat]
  | cons b bs ih =>
    have hb : b < 256 := h b (by simp)
    have hbs : IsBytes bs := fun x hx => h x (by simp [hx])
    have := ih hbs
    simp only [leNat, List.length_cons, pow_succ]
    omega

theorem tmod_bounds (a : Int) :
    -1000000000 < Int.tmod a 1000000000 ∧ Int.tmod a 1000000000 < 1000000000
      ∧ (0 ≤ a → 0 ≤ Int.tmod a 1000000000) := by
  refine ⟨?_, Int.tmod_lt_of_pos a (by norm_num), fun h => Int.tmod_nonneg _ h⟩
  by_cases h : 0 ≤ a
  · have := Int.tmod_nonneg 1000000000 h
    omega
  · have h1 : 0 ≤ -a := by omega
    have h2 := Int.tmod_lt_of_pos (-a) (show (0 : Int) < 1000000000 by norm_num)
    have h3 := Int.tmod_add_tdiv a 1000000000
    have h4 := Int.tmod_add_tdiv (-a) 1000000000
    rw [Int.neg_tdiv] at h4
    omega

/-- The method `Add` moves an instant by exactly the given Duration. -/
theorem sinceStart_Add (t : Time) (d : Int) : sinceStart (t.Add d) = sinceStart t + d := by
  have h := Int.tmod_add_tdiv d 1000000000
  unfold Time.Add sinceStart
  simp only
  split_ifs <;> simp only <;> omega

theorem Add_nsec_range (t : Time) (d : Int) (h1 : 0 ≤ t.nsec) (h2 : t.nsec < 1000000000) :
    0 ≤ (t.Add d).nsec ∧ (t.Add d).nsec < 1000000000 := by
  obtain ⟨b1, b2, _⟩ := tmod_bounds d
  unfold Time.Add
  simp only
  split_ifs <;> simp only <;> omega

/-- The DATETIME decoder on an 8-byte buffer whose day field lies in
`-106751 .. 106751`: the instant 1900-01-01 plus `days` whole days plus
`ticks / 300` seconds, cut to whole nanoseconds. -/
theorem datetime_decode_in_range (data : List Nat) (hlen : data.length = 8)
    (hb : IsBytes data) (hd1 : -106751 ≤ dayField data) (hd2 : dayField data ≤ 106751) :
    ∃ t, sqlBufToType SYBDATETIME data = some (Value.time t)
      ∧ 0 ≤ t.nsec ∧ t.nsec < 1000000000
      ∧ sinceStart t
        = dayField data * 86400000000000 + ((tickField data : Nat) : Int) * 1000000000 / 300 := by
  have r1 : binaryRead 4 data = (leNat (data.take 4) % 2 ^ 32, data.drop 4) := by
    simp [binaryRead, hlen]
  have r2 : binaryRead 4 (data.drop 4) = (tickField data, (data.drop 4).drop 4) := by
    have hlt : leNat ((data.drop 4).take 4) < 256 ^ ((data.drop 4).take 4).length :=
      leNat_lt _ (fun x hx => hb x (List.mem_of_mem_drop (List.mem_of_mem_take hx)))
    have hl4 : ((data.drop 4).take 4).length = 4 := by simp [hlen]
    rw [hl4] at hlt
    norm_num at hlt
    simp only [binaryRead, List.length_drop, hlen]
    simp [tickField]
    exact hlt
  have hday : wrapS 32 ((leNat (data.take 4) % 2 ^ 32 : Nat) : Int) = dayField data := by
    rw [← wrapU_natCast, wrapS_wrapU]; rfl
  have htk : tickField data < 2 ^ 32 := by
    have hlt : leNat ((data.drop 4).take 4) < 256 ^ ((data.drop 4).take 4).length :=
      leNat_lt _ (fun x hx => hb x (List.mem_of_mem_drop (List.mem_of_mem_take hx)))
    have hl4 : ((data.drop 4).take 4).length = 4 := by simp [hlen]
    rw [hl4] at hlt
    unfold tickField
    omega
  have w1 : wrapS 64 (dayField data * Hour) = dayField data * 3600000000000 := by
    rw [wrapS_of_range 64 (by norm_num) _ (by norm_num [Hour]; omega) (by norm_num [Hour]; omega)]
    norm_num [Hour]
  have w2 : wrapS 64 (dayField data * 3600000000000 * 24) = dayField data * 86400000000000 := by
    rw [wrapS_of_range 64 (by norm_num) _ (by norm_num; omega) (by norm_num; omega)]
    ring
  have w3 : wrapS 64 (((tickField data : Nat) : Int) * Second)
      = ((tickField data : Nat) : Int) * 1000000000 := by
    rw [wrapS_of_range 64 (by norm_num) _ (by norm_num [Second]; omega)
      (by norm_num [Second]; omega)]
  have w4 : Int.tdiv (((tickField data : Nat) : Int) * 1000000000) 300
      = ((tickField data : Nat) : Int) * 1000000000 / 300 :=
    Int.tdiv_eq_ediv (by omega) (by omega)
  refine ⟨(sqlStartTime.Add (dayField data * 86400000000000)).Add
      (((tickField data : Nat) : Int) * 1000000000 / 300), ?_, ?_, ?_, ?_⟩
  · simp only [sqlBufToType]
    simp only [r1, r2, hday, w1, w2, w3, w4]
    simp
  · exact (Add_nsec_range _ _ (Add_nsec_range _ _ (by decide) (by decide)).1
      (Add_nsec_range _ _ (by decide) (by decide)).2).1
  · exact (Add_nsec_range _ _ (Add_nsec_range _ _ (by decide) (by decide)).1
      (Add_nsec_range _ _ (by decide) (by decide)).2).2
  · rw [sinceStart_Add, sinceStart_Add]
    simp [sinceStart, sqlStartTime]

/-- C10, at day fields outside `-106751 .. 106751`: `days * Hour * 24` wraps in
`int64`.  Day `106752` with tick `0` decodes to an instant `2^64` nanoseconds
before 1900-01-01 plus 106752 days, which lies before 1900; day `-106752`
decodes to one after 1900; day `2958463` (9999-12-31) decodes to an instant
before 1900 as well.  Day `106751` decodes to 1900-01-01 plus 106751 days. -/
theorem datetime_decode_wraps :
    wrapS 32 (leNat [0, 161, 1, 0]) = 106752
    ∧ sqlBufToType SYBDATETIME [0, 161, 1, 0, 0, 0, 0, 0]
        = some (Value.time ⟨50703236726, 290448384⟩)
    ∧ sinceStart ⟨50703236726, 290448384⟩ = 106752 * 86400 * 1000000000 - 2 ^ 64
    ∧ sinceStart ⟨50703236726, 290448384⟩ < 0
    ∧ wrapS 32 (leNat [0, 95, 254, 255]) = -106752
    ∧ sqlBufToType SYBDATETIME [0, 95, 254, 255, 0, 0, 0, 0]
        = some (Value.time ⟨69149979273, 709551616⟩)
    ∧ sinceStart ⟨69149979273, 709551616⟩ = -106752 * 86400 * 1000000000 + 2 ^ 64
    ∧ wrapS 32 (leNat [127, 36, 45, 0]) = 2958463
    ∧ sqlBufToType SYBDATETIME [127, 36, 45, 0, 0, 0, 0, 0]
        = some (Value.time ⟨57283394168, 66277376⟩)
    ∧ sinceStart ⟨57283394168, 66277376⟩ < 0
    ∧ sqlBufToType SYBDATETIME [255, 160, 1, 0, 0, 0, 0, 0]
        = some (Value.time ⟨59926608000 + 106751 * 86400, 0⟩) := by
  decide!

/-! ## SMALLMONEY -/

/-- C13. SMALLMONEY round trip on the scaled integer: when the product of the value
with 10000, truncated toward zero, is an integer `s` of 32 bits, the encoder
returns the four little-endian two's-complement bytes of `s` and the decoder
turns them into `float64(s) / 10000`; `-7.5` is written as `-75000` and read
back as `-7.5`. -/
theorem smallmoney_roundtrip (value : Float64) (s : Int)
    (hs : Float64.trunc (Float64.mul value (Float64.ofInt 10000)) = some s)
    (h1 : -(2 : Int) ^ 31 ≤ s) (h2 : s < (2 : Int) ^ 31) :
    typeToSqlBuf SYBMONEY4 (Value.float64 value) = Except.ok (leBytes 4 (wrapU 32 s))
    ∧ sqlBufToType SYBMONEY4 (leBytes 4 (wrapU 32 s))
        = some (Value.float64 (Float64.div (Float64.ofInt s) (Float64.ofInt 10000)))
    ∧ typeToSqlBuf SYBMONEY4 (Value.float64 ⟨0xC01E000000000000⟩)
        = Except.ok (leBytes 4 (wrapU 32 (-75000)))
    ∧ sqlBufToType SYBMONEY4 (leBytes 4 (wrapU 32 (-75000)))
        = some (Value.float64 ⟨0xC01E000000000000⟩) := by
  have ht : Float64.toInt32 (Float64.mul value (Float64.ofInt 10000)) = s := by
    unfold Float64.toInt32
    rw [hs]
    simp only
    rw [if_pos ⟨h1, h2⟩]
  have hr := binaryRead_writeInt 4 s []
  simp only [List.append_nil, writeInt] at hr
  refine ⟨?_, ?_, by decide!, by decide!⟩
  · simp [typeToSqlBuf, ht, writeInt]
  · simp [sqlBufToType, hr, wrapS_wrapU, wrapS_of_range 32 (by norm_num) s h1 h2]

/-- C13, for the value `-7.5`, whose scaled integer is `-75000`. -/
theorem smallmoney_roundtrip_witness :
    Float64.trunc (Float64.mul ⟨0xC01E000000000000⟩ (Float64.ofInt 10000)) = some (-75000)
    ∧ typeToSqlBuf SYBMONEY4 (Value.float64 ⟨0xC01E000000000000⟩)
        = Except.ok (leBytes 4 (wrapU 32 (-75000)))
    ∧ sqlBufToType SYBMONEY4 (leBytes 4 (wrapU 32 (-75000)))
        = some (Value.float64 (Float64.div (Float64.ofInt (-75000)) (Float64.ofInt 10000))) :=
  ⟨by decide!,
   (smallmoney_roundtrip ⟨0xC01E000000000000⟩ (-75000) (by decide!) (by decide)
      (by decide)).1,
   (smallmoney_roundtrip ⟨0xC01E000000000000⟩ (-75000) (by decide!) (by decide)
      (by decide)).2.1⟩

/-! ## BIT -/

/-- C14. BIT rule: a non-empty buffer decodes to `true` exactly when its first byte is
`1`; the encoder writes the single byte `1` for `true` and `0` for `false`, and
decoding that byte gives the boolean back. -/
theorem bit_rule (b : Nat) (rest : List Nat) (v : Bool) :
    sqlBufToType SYBBIT (b :: rest) = some (Value.bool (decide (b = 1)))
    ∧ typeToSqlBuf SYBBIT (Value.bool v) = Except.ok [if v then 1 else 0]
    ∧ sqlBufToType SYBBIT [if v then 1 else 0] = some (Value.bool v) := by
  refine ⟨by simp [sqlBufToType], ?_, ?_⟩
  · cases v <;> simp [typeToSqlBuf]
  · cases v <;> simp [sqlBufToType]

/-! ## Text framing -/

/-- C15. Text framing round trip: under a text code the encoder returns the bytes of
the text followed by one zero byte; decoding that buffer gives the text back
exactly when the text holds no zero byte, and the part before its first zero
byte otherwise. -/
theorem text_roundtrip (tag : Int) (s : List Nat) (htag : IsFramedTextTag tag) :
    typeToSqlBuf tag (Value.string s) = Except.ok (s ++ [0])
    ∧ (s ++ [0]).length = s.length + 1
    ∧ (sqlBufToType tag (s ++ [0]) = some (Value.string s) ↔ 0 ∉ s)
    ∧ (0 ∈ s → ∃ pre rest, s = pre ++ 0 :: rest ∧ 0 ∉ pre
        ∧ sqlBufToType tag (s ++ [0]) = some (Value.string pre)) := by
  have hdec : hasDecoderCase tag = false := by
    rcases htag.1 with rfl | rfl | rfl | h
    · decide
    · decide
    · decide
    · exact h
  have hx := htag.2
  simp only [hasDecoderCase, decide_eq_false_iff_not, not_or] at hdec
  obtain ⟨h1, h2, h3, h4, h5, h6, h7, h8, h9, h10, h11, h12, h13, h14⟩ := hdec
  have hsplit : 0 ∈ s → ∃ pre rest, s = pre ++ 0 :: rest ∧ 0 ∉ pre
      ∧ sqlBufToType tag (s ++ [0]) = some (Value.string pre) := by
    intro hz
    obtain ⟨pre, rest, e, hp⟩ := split_first_zero s hz
    refine ⟨pre, rest, e, hp, ?_⟩
    rw [e, List.append_assoc, List.cons_append]
    exact sqlBufToType_text tag pre (rest ++ [0]) htag.1 hp
  refine ⟨?_, by simp, ⟨?_, ?_⟩, hsplit⟩
  · simp [typeToSqlBuf, h1, h2, h3, h4, h5, h6, h7, h8, h9, h10, h11, h12, h13, h14, hx]
  · intro hdecode hz
    obtain ⟨pre, rest, e, hp, hd⟩ := hsplit hz
    rw [hd] at hdecode
    have hps : pre = s := by simpa using hdecode
    rw [hps] at hp
    exact hp hz
  · intro hz
    exact sqlBufToType_text tag s [] htag.1 hz

/-- C15, for the texts `"ab"` and `"a\0b"` under VARCHAR. -/
theorem text_roundtrip_witness :
    (typeToSqlBuf SYBVARCHAR (Value.string [97, 98]) = Except.ok ([97, 98] ++ [0])
      ∧ sqlBufToType SYBVARCHAR ([97, 98] ++ [0]) = some (Value.string [97, 98]))
    ∧ (typeToSqlBuf SYBVARCHAR (Value.string [97, 0, 98]) = Except.ok ([97, 0, 98] ++ [0])
      ∧ sqlBufToType SYBVARCHAR ([97, 0, 98] ++ [0]) = some (Value.string [97])) :=
  ⟨⟨(text_roundtrip SYBVARCHAR [97, 98] (by decide)).1,
    (text_roundtrip SYBVARCHAR [97, 98] (by decide)).2.2.1.mpr (by decide)⟩,
   ⟨(text_roundtrip SYBVARCHAR [97, 0, 98] (by decide)).1, by decide⟩⟩

/-! ## Wire widths and byte order -/

theorem leBytes_getElem (n v i : Nat) (h : i < n) :
    (leBytes n v)[i]? = some (v / 256 ^ i % 256) := by
  induction n generalizing v i with
  | zero => omega
  | succ n ih =>
    cases i with
    | zero => simp [leBytes]
    | succ j =>
      simp only [leBytes, List.getElem?_cons_succ]
      rw [ih (v / 256) j (by omega), Nat.div_div_eq_div_mul, pow_succ']

theorem writeInt_getElem (n : Nat) (v : Int) (i : Nat) (h : i < n) :
    (writeInt n v)[i]? = some (wrapU (8 * n) v / 2 ^ (8 * i) % 256) := by
  unfold writeInt
  rw [leBytes_getElem n _ i h, pow_256]

/-- C16. Fixed wire widths and byte order: for a fixed-width tag and a value of the Go
type it asks for, the encoder returns exactly the declared number of bytes;
under the integer tags byte `i` of the output is bits `8i .. 8i+7` of the
two's-complement form of the value. -/
theorem wire_width (tag : Int) (v : Value) (w : Nat) (a i : Nat) (x : Int)
    (hw : wireWidth tag = some w) (hs : shapeRequired tag v = true) :
    (∃ bs, typeToSqlBuf tag v = Except.ok bs ∧ bs.length = w)
    ∧ (i < 1 → ∃ bs, typeToSqlBuf SYBINT1 (Value.uint8 a) = Except.ok bs
        ∧ bs[i]? = some (a / 2 ^ (8 * i) % 256))
    ∧ (i < 2 → ∃ bs, typeToSqlBuf SYBINT2 (Value.int16 x) = Except.ok bs
        ∧ bs[i]? = some (wrapU 16 x / 2 ^ (8 * i) % 256))
    ∧ (i < 4 → ∃ bs, typeToSqlBuf SYBINT4 (Value.int32 x) = Except.ok bs
        ∧ bs[i]? = some (wrapU 32 x / 2 ^ (8 * i) % 256))
    ∧ (i < 4 → ∃ bs, typeToSqlBuf SYBINT4 (Value.int x) = Except.ok bs
        ∧ bs[i]? = some (wrapU 32 x / 2 ^ (8 * i) % 256))
    ∧ (i < 4 → ∃ bs, typeToSqlBuf SYBINT4 (Value.int64 x) = Except.ok bs
        ∧ bs[i]? = some (wrapU 32 x / 2 ^ (8 * i) % 256))
    ∧ (i < 8 → ∃ bs, typeToSqlBuf SYBINT8 (Value.int64 x) = Except.ok bs
        ∧ bs[i]? = some (wrapU 64 x / 2 ^ (8 * i) % 256)) := by
  refine ⟨?_, ?_, ?_, ?_, ?_, ?_, ?_⟩
  · have hcases : tag = SYBINT1 ∨ tag = SYBBIT ∨ tag = SYBINT2 ∨ tag = SYBINT4 ∨ tag = SYBREAL
        ∨ tag = SYBMONEY4 ∨ tag = SYBDATETIME4 ∨ tag = SYBINT8 ∨ tag = SYBFLT8
        ∨ tag = SYBMONEY ∨ tag = SYBDATETIME := by
      unfold wireWidth at hw
      split_ifs at hw with h1 h2 h3 h4
      · rcases h1 with h | h <;> simp [h]
      · simp [h2]
      · rcases h3 with h | h | h | h <;> simp [h]
      · rcases h4 with h | h | h | h <;> simp [h]
    rcases hcases with h | h | h | h | h | h | h | h | h | h | h <;> subst h <;>
      simp [wireWidth] at hw <;> subst hw <;> cases v <;> simp [shapeRequired] at hs <;>
      refine ⟨_, rfl, ?_⟩ <;>
      first | simp [writeInt, writeUint, leBytes_length] | (split <;> rfl)
  · intro hi
    refine ⟨writeUint 1 a, by simp [typeToSqlBuf], ?_⟩
    unfold writeUint
    rw [leBytes_getElem 1 _ i hi, pow_256]
  · intro hi
    exact ⟨writeInt 2 x, by simp [typeToSqlBuf], writeInt_getElem 2 x i hi⟩
  · intro hi
    exact ⟨writeInt 4 x, by simp [typeToSqlBuf], writeInt_getElem 4 x i hi⟩
  · intro hi
    refine ⟨writeInt 4 (wrapS 32 x), by simp [typeToSqlBuf], ?_⟩
    rw [writeInt_getElem 4 _ i hi, wrapU_wrapS]
  · intro hi
    refine ⟨writeInt 4 (wrapS 32 x), by simp [typeToSqlBuf], ?_⟩
    rw [writeInt_getElem 4 _ i hi, wrapU_wrapS]
  · intro hi
    exact ⟨writeInt 8 x, by simp [typeToSqlBuf], writeInt_getElem 8 x i hi⟩

/-- C16, for a DATETIME value (8 bytes) and the high byte of the SMALLINT `-2`. -/
theorem wire_width_witness :
    (∃ bs, typeToSqlBuf SYBDATETIME (Value.time sqlStartTime) = Except.ok bs ∧ bs.length = 8)
    ∧ (∃ bs, typeToSqlBuf SYBINT2 (Value.int16 (-2)) = Except.ok bs
        ∧ bs[1]? = some (wrapU 16 (-2) / 2 ^ (8 * 1) % 256))
    ∧ wrapU 16 (-2) / 2 ^ (8 * 1) % 256 = 255 :=
  ⟨(wire_width SYBDATETIME (Value.time sqlStartTime) 8 0 0 0 (by decide) (by decide)).1,
   (wire_width SYBDATETIME (Value.time sqlStartTime) 8 0 1 (-2) (by decide)
      (by decide)).2.2.1 (by decide),
   by decide⟩

/-! ## The bind-type mapper -/

/-- C17. Bind-type mapper: `dbbindtype` returns BINARYBIND for IMAGE, VARBINARY and
BINARY, BITBIND for BIT, the bind identifier of their own for DATETIME,
SMALLDATETIME, DECIMAL, NUMERIC, FLOAT8, REAL, TINYINT, SMALLINT, INT, BIGINT,
MONEY and SMALLMONEY, and NTBSTRINGBIND for TEXT, VARCHAR, CHAR and for every
code the switch does not list. -/
theorem dbbindtype_table (c : Sybdb) (hd : c.Distinct) :
    dbbindtype c SYBIMAGE = c.BINARYBIND
    ∧ dbbindtype c SYBVARBINARY = c.BINARYBIND
    ∧ dbbindtype c SYBBINARY = c.BINARYBIND
    ∧ dbbindtype c SYBBIT = c.BITBIND
    ∧ dbbindtype c SYBDATETIME = c.DATETIMEBIND
    ∧ dbbindtype c SYBDATETIME4 = c.SMALLDATETIMEBIND
    ∧ dbbindtype c c.SYBDECIMAL = c.DECIMALBIND
    ∧ dbbindtype c c.SYBNUMERIC = c.NUMERICBIND
    ∧ dbbindtype c SYBFLT8 = c.FLT8BIND
    ∧ dbbindtype c SYBREAL = c.REALBIND
    ∧ dbbindtype c SYBINT1 = c.TINYBIND
    ∧ dbbindtype c SYBINT2 = c.SMALLBIND
    ∧ dbbindtype c SYBINT4 = c.INTBIND
    ∧ dbbindtype c SYBINT8 = c.BIGINTBIND
    ∧ dbbindtype c SYBMONEY = c.MONEYBIND
    ∧ dbbindtype c SYBMONEY4 = c.SMALLMONEYBIND
    ∧ dbbindtype c c.SYBTEXT = c.NTBSTRINGBIND
    ∧ dbbindtype c SYBVARCHAR = c.NTBSTRINGBIND
    ∧ dbbindtype c SYBCHAR = c.NTBSTRINGBIND
    ∧ (∀ tag, ¬ bindListed c tag → dbbindtype c tag = c.NTBSTRINGBIND) := by
  obtain ⟨d1, d2, d3, d4⟩ := hd
  obtain ⟨t1, t2, t3, t4, t5, t6, t7, t8, t9, t10, t11, t12, t13, t14, t15, t16⟩ :=
    d4 c.SYBTEXT (Or.inl rfl)
  obtain ⟨e1, e2, e3, e4, e5, e6, e7, e8, e9, e10, e11, e12, e13, e14, e15, e16⟩ :=
    d4 c.SYBDECIMAL (Or.inr (Or.inl rfl))
  obtain ⟨n1, n2, n3, n4, n5, n6, n7, n8, n9, n10, n11, n12, n13, n14, n15, n16⟩ :=
    d4 c.SYBNUMERIC (Or.inr (Or.inr rfl))
  refine ⟨?_, ?_, ?_, ?_, ?_, ?_, ?_, ?_, ?_, ?_, ?_, ?_, ?_, ?_, ?_, ?_, ?_, ?_, ?_, ?_⟩
  case refine_20 =>
    intro tag hl
    simp only [bindListed, not_or] at hl
    obtain ⟨l1, l2, l3, l4, l5, l6, l7, l8, l9, l10, l11, l12, l13, l14, l15, l16, l17, l18,
      l19⟩ := hl
    simp only [dbbindtype, l1, l2, l3, l4, l5, l6, l7, l8, l9, l10, l11, l12, l13, l14, l15,
      l16, l17, l18, l19, or_self, if_false]
  case refine_7 =>
    simp only [dbbindtype, e1, e2, e3, e4, e7, e8, e5, e6, Ne.symm d1, or_self, if_false,
      if_true]
  case refine_8 =>
    simp only [dbbindtype, n1, n2, n3, n4, n7, n8, n5, n6, Ne.symm d2, Ne.symm d3, or_self,
      if_false, if_true]
  case refine_17 =>
    simp only [dbbindtype, t1, t2, t3, t4, true_or, or_self, if_false, if_true]
  all_goals
    simp [dbbindtype, Ne.symm t1, Ne.symm t2, Ne.symm t3, Ne.symm t4, Ne.symm t5, Ne.symm t6,
      Ne.symm t7, Ne.symm t8, Ne.symm t9, Ne.symm t10, Ne.symm t11, Ne.symm t12, Ne.symm t13,
      Ne.symm t14, Ne.symm t15, Ne.symm t16, Ne.symm e1, Ne.symm e2, Ne.symm e3, Ne.symm e4,
      Ne.symm e5, Ne.symm e6, Ne.symm e7, Ne.symm e8, Ne.symm e9, Ne.symm e10, Ne.symm e11,
      Ne.symm e12, Ne.symm e13, Ne.symm e14, Ne.symm e15, Ne.symm e16, Ne.symm n1, Ne.symm n2,
      Ne.symm n3, Ne.symm n4, Ne.symm n5, Ne.symm n6, Ne.symm n7, Ne.symm n8, Ne.symm n9,
      Ne.symm n10, Ne.symm n11, Ne.symm n12, Ne.symm n13, Ne.symm n14, Ne.symm n15,
      Ne.symm n16]

/-- C17, for one choice of the header constants; NVARCHAR (103), the extended
varbinary code (165) and the unknown code 7 map to NTBSTRINGBIND. -/
theorem dbbindtype_table_witness :
    dbbindtype ⟨35, 106, 108, 15, 16, 2, 11, 12, 18, 17, 9, 10, 6, 7, 8, 30, 13, 14⟩
        SYBDATETIME = 11
    ∧ dbbindtype ⟨35, 106, 108, 15, 16, 2, 11, 12, 18, 17, 9, 10, 6, 7, 8, 30, 13, 14⟩
        SYBNVARCHAR = 2
    ∧ dbbindtype ⟨35, 106, 108, 15, 16, 2, 11, 12, 18, 17, 9, 10, 6, 7, 8, 30, 13, 14⟩
        XSYBVARBINARY = 2
    ∧ dbbindtype ⟨35, 106, 108, 15, 16, 2, 11, 12, 18, 17, 9, 10, 6, 7, 8, 30, 13, 14⟩ 7 = 2 :=
  have hd : Sybdb.Distinct
      ⟨35, 106, 108, 15, 16, 2, 11, 12, 18, 17, 9, 10, 6, 7, 8, 30, 13, 14⟩ :=
    ⟨by decide, by decide, by decide, fun x hx => by
      rcases hx with h | h | h <;> subst h <;> decide⟩
  have h := dbbindtype_table
    ⟨35, 106, 108, 15, 16, 2, 11, 12, 18, 17, 9, 10, 6, 7, 8, 30, 13, 14⟩ hd
  ⟨h.2.2.2.2.1,
   h.2.2.2.2.2.2.2.2.2.2.2.2.2.2.2.2.2.2.2 SYBNVARCHAR (by simp [bindListed]),
   h.2.2.2.2.2.2.2.2.2.2.2.2.2.2.2.2.2.2.2 XSYBVARBINARY (by simp [bindListed]),
   h.2.2.2.2.2.2.2.2.2.2.2.2.2.2.2.2.2.2.2 7 (by simp [bindListed])⟩

/-! ## The MONEY split -/

theorem leNat_writeInt (n : Nat) (v : Int) : leNat (writeInt n v) = wrapU (8 * n) v := by
  unfold writeInt
  rw [leNat_leBytes, pow_256, Nat.mod_eq_of_lt (wrapU_lt _ _)]

theorem writeInt_length (n : Nat) (v : Int) : (writeInt n v).length = n := by
  unfold writeInt
  exact leBytes_length _ _

theorem writeUint_length (n v : Nat) : (writeUint n v).length = n := by
  unfold writeUint
  exact leBytes_length _ _

theorem wrapS_emod_32 (x : Int) : wrapS 64 x % 4294967296 = x % 4294967296 := by
  unfold wrapS
  norm_num
  split_ifs <;> omega

/-- The decoder's reconstruction applied to the encoder's split of a 64-bit `s`. -/
theorem moneyReconstruct_moneySplit (s : Int) (h1 : -(2 : Int) ^ 63 ≤ s)
    (h2 : s < (2 : Int) ^ 63) :
    moneyReconstruct (moneySplit s)
      = s / 4294967296 * 4294967296 + (s - s / 4294967296) % 4294967296 := by
  have hh : wrapS 32 (s / 4294967296) = s / 4294967296 :=
    wrapS_of_range 32 (by norm_num) _ (by norm_num at h1 h2 ⊢; omega)
      (by norm_num at h1 h2 ⊢; omega)
  unfold moneyReconstruct moneySplit
  rw [List.take_left' (writeInt_length 4 _), List.drop_left' (writeInt_length 4 _),
    List.take_of_length_le (by rw [writeUint_length]), leNat_writeInt]
  have hu : leNat (writeUint 4 (wrapU 32 (wrapS 64 (s - wrapS 32 (s / 4294967296)))))
      = wrapU 32 (wrapS 64 (s - wrapS 32 (s / 4294967296))) := by
    unfold writeUint
    rw [leNat_leBytes, pow_256]
    exact Nat.mod_eq_of_lt (wrapU_lt _ _)
  rw [hu, wrapS_wrapU, hh, hh, wrapU_cast]
  norm_num
  exact wrapS_emod_32 _

theorem typeToSqlBuf_money (value : Float64) :
    typeToSqlBuf SYBMONEY (Value.float64 value)
      = Except.ok (moneySplit (moneyScaled value)) := by
  simp [typeToSqlBuf, moneySplit, moneyScaled]

theorem sqlBufToType_moneySplit (s : Int) (h1 : -(2 : Int) ^ 63 ≤ s)
    (h2 : s < (2 : Int) ^ 63) :
    sqlBufToType SYBMONEY (moneySplit s)
      = some (Value.float64
          (Float64.div (Float64.ofInt (moneyReconstruct (moneySplit s)))
            (Float64.ofInt 10000))) := by
  have hr := moneyReconstruct_moneySplit s h1 h2
  have hh : wrapS 32 (s / 4294967296) = s / 4294967296 :=
    wrapS_of_range 32 (by norm_num) _ (by norm_num at h1 h2 ⊢; omega)
      (by norm_num at h1 h2 ⊢; omega)
  have r1 := binaryRead_writeInt 4 (wrapS 32 (s / 4294967296))
    (writeUint 4 (wrapU 32 (wrapS 64 (s - wrapS 32 (s / 4294967296)))))
  have r2 := binaryRead_writeUint 4 (wrapU 32 (wrapS 64 (s - wrapS 32 (s / 4294967296)))) []
  simp only [List.append_nil] at r2
  have hlow : wrapU 32 (wrapS 64 (s - wrapS 32 (s / 4294967296))) % 2 ^ (8 * 4)
      = wrapU 32 (wrapS 64 (s - wrapS 32 (s / 4294967296))) :=
    Nat.mod_eq_of_lt (wrapU_lt _ _)
  rw [hlow, hh] at r2
  rw [hh] at r1
  have hw : wrapS 64 (s / 4294967296 * 4294967296 + (s - s / 4294967296) % 4294967296)
      = s / 4294967296 * 4294967296 + (s - s / 4294967296) % 4294967296 :=
    wrapS_of_range 64 (by norm_num) _ (by norm_num at h1 h2 ⊢; omega)
      (by norm_num at h1 h2 ⊢; omega)
  have hw2 : wrapS 64 (s / 4294967296 * 4294967296) = s / 4294967296 * 4294967296 :=
    wrapS_of_range 64 (by norm_num) _ (by norm_num at h1 h2 ⊢; omega)
      (by norm_num at h1 h2 ⊢; omega)
  have hc : ((wrapU 32 (wrapS 64 (s - s / 4294967296)) : Nat) : Int)
      = (s - s / 4294967296) % 4294967296 := by
    rw [wrapU_cast]
    norm_num
    exact wrapS_emod_32 _
  rw [hr]
  simp only [sqlBufToType, moneySplit]
  simp only [r1, r2, wrapS_wrapU, hh, hw2, hc, hw]
  simp

/-- C18. Exact range of the MONEY low-word computation: for a 64-bit scaled value
`s`, the decoder's `high * 2^32 + low` of the words the encoder writes equals
`s` exactly when `0 ≤ s < 2^32`; the encoder writes those words for the scaled
value of every `float64`, and the decoder returns the reconstruction over
10000. -/
theorem money_exact_range (s : Int) (value : Float64) (h1 : -(2 : Int) ^ 63 ≤ s)
    (h2 : s < (2 : Int) ^ 63) :
    (moneyReconstruct (moneySplit s) = s ↔ 0 ≤ s ∧ s < (2 : Int) ^ 32)
    ∧ typeToSqlBuf SYBMONEY (Value.float64 value) = Except.ok (moneySplit (moneyScaled value))
    ∧ sqlBufToType SYBMONEY (moneySplit s)
        = some (Value.float64
            (Float64.div (Float64.ofInt (moneyReconstruct (moneySplit s)))
              (Float64.ofInt 10000))) := by
  refine ⟨?_, typeToSqlBuf_money value, sqlBufToType_moneySplit s h1 h2⟩
  rw [moneyReconstruct_moneySplit s h1 h2]
  norm_num at h1 h2 ⊢
  omega

/-- C18, for the scaled values `12345` (kept) and `-10000` (changed to `-9999`). -/
theorem money_exact_range_witness :
    moneyReconstruct (moneySplit 12345) = 12345
    ∧ moneyReconstruct (moneySplit (-10000)) ≠ -10000
    ∧ moneyReconstruct (moneySplit (-10000)) = -9999 :=
  ⟨(money_exact_range 12345 ⟨0⟩ (by decide) (by decide)).1.mpr (by decide),
   fun h => absurd ((money_exact_range (-10000) ⟨0⟩ (by decide) (by decide)).1.mp h).1
     (by decide),
   by decide⟩

/-! ## Rounding of binary64 arithmetic -/

namespace Float64

theorem log2Aux_spec (fuel n : Nat) (h : n ≤ fuel) (hn : 0 < n) :
    2 ^ log2Aux fuel n ≤ n ∧ n < 2 ^ (log2Aux fuel n + 1) := by
  induction fuel generalizing n with
  | zero => omega
  | succ fuel ih =>
    unfold log2Aux
    by_cases h2 : n < 2
    · rw [if_pos h2]
      simp
      omega
    · rw [if_neg h2]
      obtain ⟨a, b⟩ := ih (n / 2) (by omega) (by omega)
      constructor
      · rw [pow_succ]; omega
      · rw [pow_succ]; omega

theorem log2_spec (n : Nat) (hn : 0 < n) : 2 ^ log2 n ≤ n ∧ n < 2 ^ (log2 n + 1) :=
  log2Aux_spec n n (le_refl n) hn

theorem zpow_two_toNat (z : ℤ) (hz : 0 ≤ z) : ((2 ^ z.toNat : ℕ) : ℚ) = (2 : ℚ) ^ z := by
  have h : ((z.toNat : ℕ) : ℤ) = z := Int.toNat_of_nonneg hz
  rw [Nat.cast_pow, Nat.cast_ofNat, ← zpow_natCast, h]

/-- The binary exponent of a positive rational: `2^k ≤ num/den < 2^(k+1)` for the
`k` that `round` computes. -/
theorem round_exponent (num den : ℕ) (hn : 0 < num) (hd : 0 < den) :
    let k0 : ℤ := (log2 num : ℤ) - (log2 den : ℤ)
    let ge : Bool :=
      if 0 ≤ k0 then decide (den * 2 ^ k0.toNat ≤ num)
      else decide (den ≤ num * 2 ^ (-k0).toNat)
    let k : ℤ := if ge then k0 else k0 - 1
    (2 : ℚ) ^ k ≤ (num : ℚ) / den ∧ (num : ℚ) / den < (2 : ℚ) ^ (k + 1) := by
  intro k0 ge k
  have hdq : (0 : ℚ) < den := by exact_mod_cast hd
  obtain ⟨a1, a2⟩ := log2_spec num hn
  obtain ⟨b1, b2⟩ := log2_spec den hd
  have a1q : (2 : ℚ) ^ (log2 num : ℤ) ≤ num := by
    rw [zpow_natCast]; exact_mod_cast a1
  have a2q : (num : ℚ) < (2 : ℚ) ^ ((log2 num : ℤ) + 1) := by
    rw [show ((log2 num : ℤ) + 1) = ((log2 num + 1 : ℕ) : ℤ) by push_cast; rfl, zpow_natCast]
    exact_mod_cast a2
  have b1q : (2 : ℚ) ^ (log2 den : ℤ) ≤ den := by
    rw [zpow_natCast]; exact_mod_cast b1
  have b2q : (den : ℚ) < (2 : ℚ) ^ ((log2 den : ℤ) + 1) := by
    rw [show ((log2 den : ℤ) + 1) = ((log2 den + 1 : ℕ) : ℤ) by push_cast; rfl, zpow_natCast]
    exact_mod_cast b2
  have two_pos : ∀ z : ℤ, (0 : ℚ) < (2 : ℚ) ^ z := fun z => zpow_pos (by norm_num) z
  -- upper bound: x < 2^(k0+1)
  have hup : (num : ℚ) / den < (2 : ℚ) ^ (k0 + 1) := by
    rw [div_lt_iff₀ hdq]
    calc (num : ℚ) < (2 : ℚ) ^ ((log2 num : ℤ) + 1) := a2q
      _ = (2 : ℚ) ^ (k0 + 1) * (2 : ℚ) ^ (log2 den : ℤ) := by
          rw [← zpow_add₀ (by norm_num : (2 : ℚ) ≠ 0)]; congr 1; simp only [k0]; ring
      _ ≤ (2 : ℚ) ^ (k0 + 1) * den := by
          exact mul_le_mul_of_nonneg_left b1q (le_of_lt (two_pos _))
  -- lower bound: 2^(k0-1) < x
  have hlo : (2 : ℚ) ^ (k0 - 1) < (num : ℚ) / den := by
    rw [lt_div_iff₀ hdq]
    calc (2 : ℚ) ^ (k0 - 1) * den < (2 : ℚ) ^ (k0 - 1) * (2 : ℚ) ^ ((log2 den : ℤ) + 1) := by
          exact mul_lt_mul_of_pos_left b2q (two_pos _)
      _ = (2 : ℚ) ^ (log2 num : ℤ) := by
          rw [← zpow_add₀ (by norm_num : (2 : ℚ) ≠ 0)]; congr 1; simp only [k0]; ring
      _ ≤ num := a1q
  -- the comparison made by `ge`
  have hge : ge = true ↔ (2 : ℚ) ^ k0 ≤ (num : ℚ) / den := by
    rw [le_div_iff₀ hdq]
    by_cases h0 : 0 ≤ k0
    · simp only [ge, if_pos h0, decide_eq_true_eq]
      rw [← zpow_two_toNat k0 h0]
      constructor
      · intro h; rw [mul_comm]; exact_mod_cast h
      · intro h; rw [mul_comm] at h; exact_mod_cast h
    · simp only [ge, if_neg h0, decide_eq_true_eq]
      have hneg : (0 : ℤ) ≤ -k0 := by omega
      have e1 : (2 : ℚ) ^ k0 = ((2 ^ (-k0).toNat : ℕ) : ℚ)⁻¹ := by
        rw [zpow_two_toNat (-k0) hneg, zpow_neg, inv_inv]
      have hp : (0 : ℚ) < ((2 ^ (-k0).toNat : ℕ) : ℚ) := by positivity
      rw [e1, inv_mul_le_iff₀ hp]
      constructor
      · intro h; rw [mul_comm]; exact_mod_cast h
      · intro h; rw [mul_comm] at h; exact_mod_cast h
  by_cases hg : ge = true
  · have hk : k = k0 := by simp only [k, hg, if_true]
    rw [hk]
    exact ⟨hge.mp hg, hup⟩
  · have hk : k = k0 - 1 := by simp only [k, hg, if_false]; simp
    rw [hk]
    refine ⟨le_of_lt hlo, ?_⟩
    rw [show k0 - 1 + 1 = k0 by ring]
    exact lt_of_not_le (fun h => hg (hge.mpr h))

/-- What `round` computes for a positive rational `x = num/den`: an exponent `e` of
the last place and a significand `q1`, the floor or the ceiling of `x / 2^e`,
with `x / 2^e` in `[2^52, 2^53)` unless `e` is the subnormal exponent. -/
theorem round_pos_spec (num den : ℕ) (hn : 0 < num) (hd : 0 < den) :
    ∃ (e : ℤ) (q1 : ℕ), -1074 ≤ e
      ∧ round false num den = ⟨min ((e + 1074).toNat * 2 ^ 52 + q1) 0x7FF0000000000000⟩
      ∧ (∀ N : ℕ, (N : ℚ) * (2 : ℚ) ^ e ≤ (num : ℚ) / den → N ≤ q1)
      ∧ (∀ N : ℕ, (num : ℚ) / den ≤ (N : ℚ) * (2 : ℚ) ^ e → q1 ≤ N)
      ∧ (-1074 < e → (2 : ℚ) ^ (52 : ℤ) * (2 : ℚ) ^ e ≤ (num : ℚ) / den)
      ∧ (num : ℚ) / den < (2 : ℚ) ^ (53 : ℤ) * (2 : ℚ) ^ e := by
  have hk := round_exponent num den hn hd
  simp only at hk
  generalize hkdef : (if (if 0 ≤ (log2 num : ℤ) - (log2 den : ℤ)
      then decide (den * 2 ^ ((log2 num : ℤ) - (log2 den : ℤ)).toNat ≤ num)
      else decide (den ≤ num * 2 ^ (-((log2 num : ℤ) - (log2 den : ℤ))).toNat)) = true
      then (log2 num : ℤ) - (log2 den : ℤ) else (log2 num : ℤ) - (log2 den : ℤ) - 1) = k at hk
  obtain ⟨hk1, hk2⟩ := hk
  have hdq : (0 : ℚ) < den := by exact_mod_cast hd
  have two_pos : ∀ z : ℤ, (0 : ℚ) < (2 : ℚ) ^ z := fun z => zpow_pos (by norm_num) z
  have two_ne : (2 : ℚ) ≠ 0 := by norm_num
  -- the quantities of the definition
  let e : ℤ := max (k - 52) (-1074)
  let n : ℕ := if e < 0 then num * 2 ^ (-e).toNat else num
  let d : ℕ := if e < 0 then den else den * 2 ^ e.toNat
  let q : ℕ := n / d
  let r : ℕ := n % d
  let q1 : ℕ := if d < 2 * r ∨ (2 * r = d ∧ q % 2 = 1) then q + 1 else q
  have he1 : -1074 ≤ e := le_max_right _ _
  have he2 : k - 52 ≤ e := le_max_left _ _
  have hdpos : 0 < d := by
    simp only [d]
    split_ifs
    · exact hd
    · positivity
  have hdposq : (0 : ℚ) < d := by exact_mod_cast hdpos
  -- n / d = x / 2^e
  have hnd : (n : ℚ) / d = (num : ℚ) / den / (2 : ℚ) ^ e := by
    by_cases h0 : e < 0
    · have hneg : (0 : ℤ) ≤ -e := by omega
      simp only [n, d, if_pos h0]
      rw [Nat.cast_mul, zpow_two_toNat (-e) hneg, zpow_neg]
      field_simp
      exact Or.inl (mul_comm _ _)
    · have hpos : (0 : ℤ) ≤ e := by omega
      simp only [n, d, if_neg h0]
      rw [Nat.cast_mul, zpow_two_toNat e hpos]
      field_simp
  have hy : (n : ℚ) = (num : ℚ) / den / (2 : ℚ) ^ e * d := by
    rw [← hnd]; field_simp
  have hdiv : d * q + r = n := Nat.div_add_mod n d
  have hr : r < d := Nat.mod_lt n hdpos
  have hq1 : q ≤ q1 := by
    simp only [q1]; split_ifs <;> omega
  refine ⟨e, q1, he1, ?_, ?_, ?_, ?_, ?_⟩
  · unfold round
    rw [if_neg (by omega)]
    simp only [Bool.false_eq_true, if_false, zero_add]
    rw [hkdef]
  · intro N hN
    have h1 : (N : ℚ) ≤ (n : ℚ) / d := by
      rw [hnd, le_div_iff₀ (two_pos e)]; exact hN
    rw [le_div_iff₀ hdposq] at h1
    have h2 : N * d ≤ n := by exact_mod_cast h1
    have h3 : N ≤ q := (Nat.le_div_iff_mul_le hdpos).mpr h2
    omega
  · intro N hN
    have h1 : (n : ℚ) / d ≤ (N : ℚ) := by
      rw [hnd, div_le_iff₀ (two_pos e)]; exact hN
    rw [div_le_iff₀ hdposq] at h1
    have h2 : n ≤ N * d := by exact_mod_cast h1
    by_cases hr0 : r = 0
    · have hq1q : q1 = q := by
        simp only [q1]
        rw [if_neg]
        omega
      rw [hq1q]
      have h3 : d * q ≤ N * d := by omega
      rw [mul_comm] at h3
      exact Nat.le_of_mul_le_mul_right h3 hdpos
    · have h3 : d * q < N * d := by omega
      rw [mul_comm] at h3
      have h4 : q < N := Nat.lt_of_mul_lt_mul_right h3
      have h5 : q1 ≤ q + 1 := by
        simp only [q1]; split_ifs <;> omega
      omega
  · intro hlt
    have hek : e = k - 52 := by
      simp only [e] at hlt ⊢
      rcases max_cases (k - 52) (-1074) with ⟨h, _⟩ | ⟨h, _⟩
      · exact h
      · omega
    rw [← zpow_add₀ two_ne, hek, show (52 : ℤ) + (k - 52) = k by ring]
    exact hk1
  · have h : (2 : ℚ) ^ (k + 1) ≤ (2 : ℚ) ^ (53 : ℤ) * (2 : ℚ) ^ e := by
      rw [← zpow_add₀ two_ne]
      exact zpow_le_zpow_right₀ (by norm_num) (by omega)
    exact lt_of_lt_of_le hk2 h

/-- Decoding of a finite non-negative bit pattern, by exponent field `E` and
fraction `m`. -/
theorem val_finite (E m : ℕ) (hE : E < 2047) (hm : m < 2 ^ 52) :
    ∃ n d : ℕ, val ⟨E * 2 ^ 52 + m⟩ = FVal.fin false n d ∧ 0 < d
      ∧ (n : ℚ) / d
        = if E = 0 then (m : ℚ) * (2 : ℚ) ^ (-1074 : ℤ)
          else ((2 : ℚ) ^ (52 : ℤ) + m) * (2 : ℚ) ^ ((E : ℤ) - 1075) := by
  have two_ne : (2 : ℚ) ≠ 0 := by norm_num
  norm_num at hm
  have h1 : (E * 2 ^ 52 + m) % 2 ^ 64 = E * 2 ^ 52 + m := by
    norm_num; omega
  have h2 : (E * 2 ^ 52 + m) / 2 ^ 63 ≠ 1 := by
    norm_num; omega
  have h3 : (E * 2 ^ 52 + m) / 2 ^ 52 % 2048 = E := by
    norm_num; omega
  have h4 : (E * 2 ^ 52 + m) % 2 ^ 52 = m := by
    norm_num; omega
  unfold val
  simp only [h1, h2, h3, h4, decide_False]
  rw [if_neg (by omega)]
  by_cases hE0 : E = 0
  · rw [if_pos hE0, if_pos hE0]
    refine ⟨m, 2 ^ 1074, rfl, by positivity, ?_⟩
    have hp : ((2 ^ 1074 : ℕ) : ℚ) = (2 : ℚ) ^ (1074 : ℤ) := by
      rw [Nat.cast_pow, Nat.cast_ofNat, ← zpow_natCast]
      congr 1
    rw [hp, zpow_neg, div_eq_mul_inv]
  · rw [if_neg hE0, if_neg hE0]
    by_cases hE1 : 1075 ≤ E
    · rw [if_pos hE1]
      refine ⟨(2 ^ 52 + m) * 2 ^ (E - 1075), 1, rfl, by norm_num, ?_⟩
      have hz : ((E : ℤ) - 1075) = ((E - 1075 : ℕ) : ℤ) := by omega
      rw [hz, zpow_natCast]
      push_cast
      norm_num
    · rw [if_neg hE1]
      refine ⟨2 ^ 52 + m, 2 ^ (1075 - E), rfl, by positivity, ?_⟩
      have hz : ((E : ℤ) - 1075) = -((1075 - E : ℕ) : ℤ) := by omega
      rw [hz, zpow_neg, zpow_natCast]
      push_cast
      norm_num
      rfl

/-- Decoding of the bits that `round` assembles from an exponent index `E` and a
significand `q1 ≤ 2^53`. -/
theorem val_assembled (E q1 : ℕ) (hq : q1 ≤ 2 ^ 53) (hsub : E = 0 ∨ 2 ^ 52 ≤ q1)
    (hb : E * 2 ^ 52 + q1 < 0x7FF0000000000000) :
    ∃ n d : ℕ, val ⟨E * 2 ^ 52 + q1⟩ = FVal.fin false n d ∧ 0 < d
      ∧ (n : ℚ) / d = (q1 : ℚ) * (2 : ℚ) ^ ((E : ℤ) - 1074) := by
  have two_ne : (2 : ℚ) ≠ 0 := by norm_num
  norm_num at hq hsub hb
  by_cases c1 : q1 < 2 ^ 52
  · norm_num at c1
    have hE0 : E = 0 := by omega
    obtain ⟨n, d, hv, hd, hval⟩ := val_finite E q1 (by omega) (by norm_num; omega)
    refine ⟨n, d, hv, hd, ?_⟩
    rw [hval, if_pos hE0, hE0]
    norm_num
  · norm_num at c1
    by_cases c2 : q1 < 2 ^ 53
    · norm_num at c2
      obtain ⟨n, d, hv, hd, hval⟩ :=
        val_finite (E + 1) (q1 - 2 ^ 52) (by omega) (by norm_num; omega)
      have hbits : (E + 1) * 2 ^ 52 + (q1 - 2 ^ 52) = E * 2 ^ 52 + q1 := by
        norm_num; omega
      rw [hbits] at hv
      refine ⟨n, d, hv, hd, ?_⟩
      rw [hval, if_neg (by omega)]
      have hc : ((q1 - 2 ^ 52 : ℕ) : ℚ) = (q1 : ℚ) - (2 : ℚ) ^ (52 : ℤ) := by
        rw [Nat.cast_sub (by norm_num; omega)]
        norm_num
      rw [hc]
      push_cast
      rw [show ((E : ℤ) + 1 - 1075) = (E : ℤ) - 1074 by ring]
      ring
    · norm_num at c2
      have hq53 : q1 = 2 ^ 53 := by norm_num; omega
      obtain ⟨n, d, hv, hd, hval⟩ := val_finite (E + 2) 0 (by omega) (by norm_num)
      have hbits : (E + 2) * 2 ^ 52 + 0 = E * 2 ^ 52 + q1 := by
        rw [hq53]; norm_num; omega
      rw [hbits] at hv
      refine ⟨n, d, hv, hd, ?_⟩
      rw [hval, if_neg (by omega), hq53]
      push_cast
      rw [show ((E : ℤ) + 2 - 1075) = ((E : ℤ) - 1074) + 1 by ring, zpow_add₀ two_ne]
      norm_num
      ring

theorem natCast_shift (m : ℕ) (a e : ℤ) (h : e ≤ a) :
    ((m * 2 ^ (a - e).toNat : ℕ) : ℚ) * (2 : ℚ) ^ e = (m : ℚ) * (2 : ℚ) ^ a := by
  rw [Nat.cast_mul, zpow_two_toNat (a - e) (by omega), mul_assoc,
    ← zpow_add₀ (by norm_num : (2 : ℚ) ≠ 0)]
  congr 2
  ring

theorem shift_lt (m : ℕ) (a e : ℤ) (hm : m < 2 ^ 53) (h : a < e) :
    (m : ℚ) * (2 : ℚ) ^ a < (2 : ℚ) ^ (52 : ℤ) * (2 : ℚ) ^ e := by
  have two_pos : ∀ z : ℤ, (0 : ℚ) < (2 : ℚ) ^ z := fun z => zpow_pos (by norm_num) z
  have hmq : (m : ℚ) < (2 : ℚ) ^ (53 : ℤ) := by
    have : ((2 ^ 53 : ℕ) : ℚ) = (2 : ℚ) ^ (53 : ℤ) := by norm_num
    rw [← this]
    exact_mod_cast hm
  calc (m : ℚ) * (2 : ℚ) ^ a < (2 : ℚ) ^ (53 : ℤ) * (2 : ℚ) ^ a :=
        mul_lt_mul_of_pos_right hmq (two_pos a)
    _ = (2 : ℚ) ^ (53 + a) := by rw [← zpow_add₀ (by norm_num : (2 : ℚ) ≠ 0)]
    _ ≤ (2 : ℚ) ^ (52 + e) := zpow_le_zpow_right₀ (by norm_num) (by omega)
    _ = (2 : ℚ) ^ (52 : ℤ) * (2 : ℚ) ^ e := by rw [zpow_add₀ (by norm_num : (2 : ℚ) ≠ 0)]

/-- The rounding of a non-negative rational lies between any two representable
numbers that enclose the rational, and is finite. -/
theorem round_between (num den : ℕ) (hd : 0 < den) (lo hi : ℚ) (hrl : Repr53 lo)
    (hrh : Repr53 hi) (hlo : lo ≤ (num : ℚ) / den) (hhi : (num : ℚ) / den ≤ hi) :
    Between (round false num den) lo hi := by
  obtain ⟨ml, el, hml, hel, _, rfl⟩ := hrl
  obtain ⟨mh, eh, hmh, heh1, heh2, rfl⟩ := hrh
  have two_pos : ∀ z : ℤ, (0 : ℚ) < (2 : ℚ) ^ z := fun z => zpow_pos (by norm_num) z
  have two_ne : (2 : ℚ) ≠ 0 := by norm_num
  by_cases hn0 : num = 0
  · subst hn0
    obtain ⟨n, d, hv, hdp, hval⟩ := val_finite 0 0 (by norm_num) (by norm_num)
    simp only [zero_mul, add_zero, if_true, Nat.cast_zero] at hv hval
    refine ⟨n, d, ?_, hdp, ?_, ?_⟩
    · simpa [round, zero] using hv
    · rw [hval]; simpa using hlo
    · rw [hval]; simpa using hhi
  have hn : 0 < num := Nat.pos_of_ne_zero hn0
  obtain ⟨e, q1, he, hround, hA, hB, hC, hD⟩ := round_pos_spec num den hn hd
  -- upper bound
  have hup : (q1 : ℚ) * (2 : ℚ) ^ e ≤ (mh : ℚ) * (2 : ℚ) ^ eh := by
    by_cases c : e ≤ eh
    · have h1 := hB (mh * 2 ^ (eh - e).toNat) (by rw [natCast_shift mh eh e c]; exact hhi)
      rw [← natCast_shift mh eh e c]
      exact mul_le_mul_of_nonneg_right (by exact_mod_cast h1) (le_of_lt (two_pos e))
    · exfalso
      have h1 := hC (by omega)
      have h2 := shift_lt mh eh e hmh (by omega)
      linarith
  -- lower bound
  have hq52 : -1074 < e → 2 ^ 52 ≤ q1 := by
    intro hlt
    have h1 := hC hlt
    have := hA (2 ^ 52) (by
      have : ((2 ^ 52 : ℕ) : ℚ) = (2 : ℚ) ^ (52 : ℤ) := by norm_num
      rw [this]; exact h1)
    exact this
  have hlow : (ml : ℚ) * (2 : ℚ) ^ el ≤ (q1 : ℚ) * (2 : ℚ) ^ e := by
    by_cases c : e ≤ el
    · have h1 := hA (ml * 2 ^ (el - e).toNat) (by rw [natCast_shift ml el e c]; exact hlo)
      rw [← natCast_shift ml el e c]
      exact mul_le_mul_of_nonneg_right (by exact_mod_cast h1) (le_of_lt (two_pos e))
    · have h2 := shift_lt ml el e hml (by omega)
      have h3 : (2 : ℚ) ^ (52 : ℤ) ≤ (q1 : ℚ) := by
        have : ((2 ^ 52 : ℕ) : ℚ) = (2 : ℚ) ^ (52 : ℤ) := by norm_num
        rw [← this]
        exact_mod_cast hq52 (by omega)
      have h4 := mul_le_mul_of_nonneg_right h3 (le_of_lt (two_pos e))
      linarith
  -- the significand fits
  have hq53 : q1 ≤ 2 ^ 53 := by
    apply hB
    have : ((2 ^ 53 : ℕ) : ℚ) = (2 : ℚ) ^ (53 : ℤ) := by norm_num
    rw [this]
    exact le_of_lt hD
  -- no overflow
  have hlt1024 : (q1 : ℚ) * (2 : ℚ) ^ e < (2 : ℚ) ^ (52 : ℤ) * (2 : ℚ) ^ (972 : ℤ) :=
    lt_of_le_of_lt hup (shift_lt mh eh 972 hmh (by omega))
  have he971 : e ≤ 971 := by
    by_contra hc
    have h1 : (2 : ℚ) ^ (52 : ℤ) ≤ (q1 : ℚ) := by
      have : ((2 ^ 52 : ℕ) : ℚ) = (2 : ℚ) ^ (52 : ℤ) := by norm_num
      rw [← this]
      exact_mod_cast hq52 (by omega)
    have h2 : (2 : ℚ) ^ (972 : ℤ) ≤ (2 : ℚ) ^ e := zpow_le_zpow_right₀ (by norm_num) (by omega)
    have h3 : (2 : ℚ) ^ (52 : ℤ) * (2 : ℚ) ^ (972 : ℤ) ≤ (q1 : ℚ) * (2 : ℚ) ^ e :=
      mul_le_mul h1 h2 (le_of_lt (two_pos _)) (by positivity)
    linarith
  have hq971 : e = 971 → q1 < 2 ^ 53 := by
    intro h971
    by_contra hc
    have h1 : (2 : ℚ) ^ (53 : ℤ) ≤ (q1 : ℚ) := by
      have : ((2 ^ 53 : ℕ) : ℚ) = (2 : ℚ) ^ (53 : ℤ) := by norm_num
      rw [← this]
      exact_mod_cast (not_lt.mp hc)
    have h3 : (2 : ℚ) ^ (53 : ℤ) * (2 : ℚ) ^ e ≤ (q1 : ℚ) * (2 : ℚ) ^ e :=
      mul_le_mul_of_nonneg_right h1 (le_of_lt (two_pos _))
    rw [h971] at h3 hlt1024
    have h4 : (2 : ℚ) ^ (53 : ℤ) * (2 : ℚ) ^ (971 : ℤ)
        = (2 : ℚ) ^ (52 : ℤ) * (2 : ℚ) ^ (972 : ℤ) := by
      rw [← zpow_add₀ two_ne, ← zpow_add₀ two_ne]; norm_num
    linarith
  obtain ⟨E, hE⟩ : ∃ E : ℕ, (E : ℤ) = e + 1074 := ⟨(e + 1074).toNat, by omega⟩
  have hEn : (e + 1074).toNat = E := by omega
  have hbits : E * 2 ^ 52 + q1 < 0x7FF0000000000000 := by
    norm_num at hq53 hq971 ⊢
    by_cases c : e = 971
    · have := hq971 c
      omega
    · omega
  have hsub : E = 0 ∨ 2 ^ 52 ≤ q1 := by
    by_cases c : e = -1074
    · left; omega
    · right; exact hq52 (by omega)
  obtain ⟨n, d, hv, hdp, hval⟩ := val_assembled E q1 hq53 hsub hbits
  have hEe : ((E : ℤ) - 1074) = e := by omega
  rw [hEe] at hval
  refine ⟨n, d, ?_, hdp, by rw [hval]; exact hlow, by rw [hval]; exact hup⟩
  rw [hround, hEn, min_eq_left (le_of_lt hbits)]
  exact hv

theorem repr53_natCast (m : ℕ) (hm : m < 2 ^ 53) : Repr53 (m : ℚ) :=
  ⟨m, 0, hm, by norm_num, by norm_num, by simp⟩

/-- Conversion of an integer below `2^53` is exact. -/
theorem ofInt_between (i : ℕ) (h : i < 2 ^ 53) : Between (ofInt (i : ℤ)) i i := by
  have h0 : ¬ ((i : ℤ) < 0) := by omega
  have hx : (i : ℚ) = ((i : ℤ).natAbs : ℚ) / ((1 : ℕ) : ℚ) := by simp
  unfold ofInt
  simp only [h0, decide_False]
  exact round_between _ 1 (by norm_num) _ _ (repr53_natCast i h) (repr53_natCast i h)
    (le_of_eq hx) (le_of_eq hx.symm)

/-- Division by an exactly known positive divisor. -/
theorem div_between (a b : Float64) (la ha c lo hi : ℚ) (hab : Between a la ha)
    (hb : Between b c c) (hc : 0 < c) (hrl : Repr53 lo) (hrh : Repr53 hi)
    (hlo : lo ≤ la / c) (hhi : ha / c ≤ hi) : Between (div a b) lo hi := by
  obtain ⟨n, d, hva, hd, ha1, ha2⟩ := hab
  obtain ⟨m, e, hvb, he, hb1, hb2⟩ := hb
  have hme : (m : ℚ) / e = c := le_antisymm hb2 hb1
  have hdq : (0 : ℚ) < d := by exact_mod_cast hd
  have heq : (0 : ℚ) < e := by exact_mod_cast he
  have hm0 : m ≠ 0 := by
    intro h0
    rw [h0] at hme
    simp at hme
    linarith
  have hmq : (0 : ℚ) < m := by
    have : 0 < m := Nat.pos_of_ne_zero hm0
    exact_mod_cast this
  have hx : ((n * e : ℕ) : ℚ) / ((d * m : ℕ) : ℚ) = (n : ℚ) / d / c := by
    rw [← hme]
    push_cast
    field_simp
  unfold div
  rw [hva, hvb]
  simp only [hm0, if_false, Bool.xor_false]
  refine round_between _ _ (Nat.mul_pos hd (Nat.pos_of_ne_zero hm0)) _ _ hrl hrh ?_ ?_
  · rw [hx]
    exact le_trans hlo (div_le_div_of_nonneg_right ha1 (le_of_lt hc))
  · rw [hx]
    exact le_trans (div_le_div_of_nonneg_right ha2 (le_of_lt hc)) hhi

/-- Addition of two non-negative numbers. -/
theorem add_between (a b : Float64) (la ha lb hb lo hi : ℚ) (hab : Between a la ha)
    (hbb : Between b lb hb) (hrl : Repr53 lo) (hrh : Repr53 hi)
    (hlo : lo ≤ la + lb) (hhi : ha + hb ≤ hi) : Between (add a b) lo hi := by
  obtain ⟨n, d, hva, hd, ha1, ha2⟩ := hab
  obtain ⟨m, e, hvb, he, hb1, hb2⟩ := hbb
  have hdq : (0 : ℚ) < d := by exact_mod_cast hd
  have heq : (0 : ℚ) < e := by exact_mod_cast he
  have hx : ((n * e + m * d : ℕ) : ℚ) / ((d * e : ℕ) : ℚ) = (n : ℚ) / d + (m : ℚ) / e := by
    push_cast
    field_simp
  have hsum : ((1 : ℤ) * ((n * e : ℕ) : ℤ) + (1 : ℤ) * ((m * d : ℕ) : ℤ))
      = ((n * e + m * d : ℕ) : ℤ) := by push_cast; ring
  unfold add
  rw [hva, hvb]
  simp only [Bool.false_eq_true, if_false, hsum, Bool.and_self]
  by_cases h0 : ((n * e + m * d : ℕ) : ℤ) = 0
  · rw [if_pos h0]
    have hz : n * e + m * d = 0 := by exact_mod_cast h0
    have hxz : (n : ℚ) / d + (m : ℚ) / e = 0 := by
      rw [← hx, hz]; simp
    obtain ⟨n', d', hv, hdp, hval⟩ := val_finite 0 0 (by norm_num) (by norm_num)
    simp only [zero_mul, add_zero, if_true, Nat.cast_zero] at hv hval
    refine ⟨n', d', ?_, hdp, ?_, ?_⟩
    · simpa [zero] using hv
    · rw [hval]; linarith
    · rw [hval]; linarith
  · rw [if_neg h0]
    have hneg : ¬ (((n * e + m * d : ℕ) : ℤ) < 0) := by omega
    simp only [hneg, decide_False, Int.natAbs_ofNat]
    refine round_between _ _ (Nat.mul_pos hd he) _ _ hrl hrh ?_ ?_
    · rw [hx]; linarith
    · rw [hx]; linarith

/-- Conversion to `int32` of a number known to lie in `[D, D + 1)`. -/
theorem toInt32_between (f : Float64) (lo hi : ℚ) (D : ℕ) (hf : Between f lo hi)
    (hlo : (D : ℚ) ≤ lo) (hhi : hi < (D : ℚ) + 1) (hD : D < 2 ^ 31) :
    toInt32 f = (D : ℤ) := by
  obtain ⟨n, d, hv, hd, h1, h2⟩ := hf
  have hdq : (0 : ℚ) < d := by exact_mod_cast hd
  have hq : n / d = D := by
    apply Nat.div_eq_of_lt_le
    · have : (D : ℚ) * d ≤ n := by
        rw [← le_div_iff₀ hdq]; linarith
      exact_mod_cast this
    · have : (n : ℚ) < ((D : ℚ) + 1) * d := by
        rw [← div_lt_iff₀ hdq]; linarith
      exact_mod_cast this
  unfold toInt32 trunc
  rw [hv]
  simp only [Bool.false_eq_true, if_false, one_mul, hq]
  rw [if_pos]
  constructor
  · have : (0 : ℤ) ≤ (D : ℤ) := by omega
    norm_num
    omega
  · norm_num at hD ⊢
    omega

theorem repr53_div_pow (m k : ℕ) (hm : m < 2 ^ 53) (hk : k ≤ 1074) :
    Repr53 ((m : ℚ) / (2 : ℚ) ^ k) :=
  ⟨m, -(k : ℤ), hm, by omega, by omega, by rw [zpow_neg, zpow_natCast, div_eq_mul_inv]⟩

/-- The day count the encoders derive from a Duration of `24 * day + h` whole hours
and `nsec` further nanoseconds, `(hours + nsec / 3.6e12) / 24` truncated, is
`day` as long as the Duration ends a 300th of a second before the next day. -/
theorem days_of_hours (day h nsec : ℕ) (hday : day ≤ 106751) (hh : h ≤ 23)
    (hns : nsec < 3600000000000) (hlast : h = 23 → nsec ≤ 3599996666666) :
    toInt32 (div (add (ofInt ((24 * day + h : ℕ) : ℤ))
        (div (ofInt (nsec : ℤ)) (ofInt 3600000000000))) (ofInt 24)) = (day : ℤ) := by
  have hdayq : (day : ℚ) ≤ 106751 := by exact_mod_cast hday
  have hhq : (h : ℚ) ≤ 23 := by exact_mod_cast hh
  have hnsq : (nsec : ℚ) < 3600000000000 := by exact_mod_cast hns
  have hns0 : (0 : ℚ) ≤ nsec := by positivity
  have hday0 : (0 : ℚ) ≤ day := by positivity
  have hh0 : (0 : ℚ) ≤ h := by positivity
  -- the operands
  have ba := ofInt_between (24 * day + h) (by norm_num; omega)
  have bn := ofInt_between nsec (by norm_num; omega)
  have b36 : Between (ofInt 3600000000000) 3600000000000 3600000000000 := by
    have := ofInt_between 3600000000000 (by norm_num)
    simpa using this
  have b24 : Between (ofInt 24) 24 24 := by
    have := ofInt_between 24 (by norm_num)
    simpa using this
  -- the bound on the fraction of an hour
  obtain ⟨cm, hcm⟩ : ∃ cm : ℕ, cm = if h = 23 then 2 ^ 21 - 1 else 2 ^ 21 := ⟨_, rfl⟩
  have hcm1 : cm ≤ 2 ^ 21 := by rw [hcm]; split_ifs <;> norm_num
  have hcmq : (cm : ℚ) ≤ 2097152 := by
    have : cm ≤ 2097152 := by norm_num at hcm1; exact hcm1
    exact_mod_cast this
  have hcm2 : h = 23 → (cm : ℚ) = 2097151 := by
    intro h23; rw [hcm, if_pos h23]; norm_num
  have hcm3 : h ≠ 23 → (cm : ℚ) = 2097152 := by
    intro h23; rw [hcm, if_neg h23]; norm_num
  have bc : Between (div (ofInt (nsec : ℤ)) (ofInt 3600000000000)) 0
      ((cm : ℚ) / (2 : ℚ) ^ 21) := by
    refine div_between _ _ (nsec : ℚ) (nsec : ℚ) 3600000000000 _ _ bn b36 (by norm_num)
      ?_ (repr53_div_pow cm 21 (by norm_num at hcm1 ⊢; omega) (by norm_num)) ?_ ?_
    · have := repr53_natCast 0 (by norm_num)
      simpa using this
    · positivity
    · rw [div_le_div_iff₀ (by norm_num) (by norm_num)]
      by_cases h23 : h = 23
      · have h1 : (nsec : ℚ) ≤ 3599996666666 := by exact_mod_cast hlast h23
        rw [hcm2 h23]
        norm_num
        linarith
      · rw [hcm3 h23]
        norm_num
        linarith
  -- the hours
  obtain ⟨hm, hhm⟩ : ∃ hm : ℕ, hm + 1 = (24 * day + 24) * 2 ^ 21 :=
    ⟨(24 * day + 24) * 2 ^ 21 - 1, by
      have : 0 < (24 * day + 24) * 2 ^ 21 := by positivity
      omega⟩
  have hhmq : (hm : ℚ) + 1 = (24 * (day : ℚ) + 24) * 2097152 := by
    have : ((hm + 1 : ℕ) : ℚ) = (((24 * day + 24) * 2 ^ 21 : ℕ) : ℚ) := by rw [hhm]
    push_cast at this
    linarith
  have bH : Between (add (ofInt ((24 * day + h : ℕ) : ℤ))
      (div (ofInt (nsec : ℤ)) (ofInt 3600000000000)))
      ((24 * day : ℕ) : ℚ) ((hm : ℚ) / (2 : ℚ) ^ 21) := by
    refine add_between _ _ _ _ _ _ _ _ ba bc (repr53_natCast _ (by norm_num; omega))
      (repr53_div_pow hm 21 (by norm_num at hhm ⊢; omega) (by norm_num)) ?_ ?_
    · push_cast; linarith
    · have h21 : ((2 : ℚ) ^ 21) = 2097152 := by norm_num
      rw [h21, le_div_iff₀ (by norm_num), add_mul, div_mul_cancel₀ _ (by norm_num)]
      push_cast
      by_cases h23 : h = 23
      · rw [hcm2 h23]
        have : (h : ℚ) = 23 := by exact_mod_cast h23
        rw [this]
        linarith
      · rw [hcm3 h23]
        have : (h : ℚ) ≤ 22 := by
          have : h ≤ 22 := by omega
          exact_mod_cast this
        linarith
  -- the days
  obtain ⟨dm, hdm⟩ : ∃ dm : ℕ, dm + 1 = (day + 1) * 2 ^ 26 :=
    ⟨(day + 1) * 2 ^ 26 - 1, by
      have : 0 < (day + 1) * 2 ^ 26 := by positivity
      omega⟩
  have hdmq : (dm : ℚ) + 1 = ((day : ℚ) + 1) * 67108864 := by
    have : ((dm + 1 : ℕ) : ℚ) = (((day + 1) * 2 ^ 26 : ℕ) : ℚ) := by rw [hdm]
    push_cast at this
    linarith
  have bR : Between (div (add (ofInt ((24 * day + h : ℕ) : ℤ))
      (div (ofInt (nsec : ℤ)) (ofInt 3600000000000))) (ofInt 24))
      (day : ℚ) ((dm : ℚ) / (2 : ℚ) ^ 26) := by
    refine div_between _ _ _ _ 24 _ _ bH b24 (by norm_num)
      (repr53_natCast _ (by norm_num; omega))
      (repr53_div_pow dm 26 (by norm_num at hdm ⊢; omega) (by norm_num)) ?_ ?_
    · push_cast
      rw [le_div_iff₀ (by norm_num)]
      linarith
    · rw [div_div, div_le_div_iff₀ (by norm_num) (by norm_num)]
      norm_num
      linarith
  refine toInt32_between _ _ _ day bR (le_refl _) ?_ (by norm_num; omega)
  rw [div_lt_iff₀ (by norm_num)]
  norm_num
  linarith

end Float64

/-! ## DATETIME encoding -/

theorem leBytes_leNat (bs : List Nat) (h : IsBytes bs) : leBytes bs.length (leNat bs) = bs := by
  induction bs with
  | nil => rfl
  | cons b bs ih =>
    have hb : b < 256 := h b (by simp)
    have hbs : IsBytes bs := fun x hx => h x (by simp [hx])
    simp only [List.length_cons, leNat, leBytes]
    have h1 : (b + 256 * leNat bs) % 256 = b := by omega
    have h2 : (b + 256 * leNat bs) / 256 = leNat bs := by omega
    rw [h1, h2, ih hbs]

theorem wrapS_lt (w : Nat) (hw : 0 < w) (i : Int) : wrapS w i < (2 : Int) ^ (w - 1) := by
  obtain ⟨k, rfl⟩ : ∃ k, w = k + 1 := ⟨w - 1, by omega⟩
  have hp : (2 : Int) ^ (k + 1) = 2 * (2 : Int) ^ k := by ring
  have hk : (0 : Int) < (2 : Int) ^ k := by positivity
  have hm := Int.emod_lt_of_pos i (show (0 : Int) < (2 : Int) ^ (k + 1) by positivity)
  unfold wrapS
  simp only [Nat.add_sub_cancel]
  split_ifs with h
  · exact h
  · omega

/-- The Duration from 1900-01-01 to a later instant: the exact difference when it
fits in `int64`, the largest Duration otherwise. -/
theorem Sub_sqlStartTime (t : Time) (hn1 : 0 ≤ t.nsec) (hn2 : t.nsec < 1000000000)
    (hs1 : sqlStartTime.sec ≤ t.sec) (hs2 : t.sec - sqlStartTime.sec < 10000000000) :
    (sinceStart t < (2 : Int) ^ 63 → t.Sub sqlStartTime = sinceStart t)
    ∧ ((2 : Int) ^ 63 ≤ sinceStart t → t.Sub sqlStartTime = maxDuration) := by
  have hu : sqlStartTime.sec = 59926608000 := rfl
  have hun : sqlStartTime.nsec = 0 := rfl
  have w1 : wrapS 64 (t.sec - sqlStartTime.sec) = t.sec - sqlStartTime.sec :=
    wrapS_of_range 64 (by norm_num) _ (by norm_num; omega) (by norm_num; omega)
  constructor
  · intro hlt
    have hss : sinceStart t = (t.sec - sqlStartTime.sec) * 1000000000 + t.nsec := rfl
    have w2 : wrapS 64 ((t.sec - sqlStartTime.sec) * Second)
        = (t.sec - sqlStartTime.sec) * 1000000000 :=
      wrapS_of_range 64 (by norm_num) _ (by norm_num [Second]; omega)
        (by norm_num [Second] at hlt ⊢; omega)
    have w3 : wrapS 64 ((t.sec - sqlStartTime.sec) * 1000000000 + (t.nsec - sqlStartTime.nsec))
        = sinceStart t := by
      rw [hun, sub_zero, ← hss]
      exact wrapS_of_range 64 (by norm_num) _ (by norm_num; omega) (by norm_num at hlt ⊢; omega)
    have hadd : sqlStartTime.Add (sinceStart t) = t := by
      have h0 : 0 ≤ sinceStart t := by omega
      have e1 : Int.tdiv (sinceStart t) 1000000000 = sinceStart t / 1000000000 :=
        Int.tdiv_eq_ediv h0 (by norm_num)
      have e2 : Int.tmod (sinceStart t) 1000000000 = sinceStart t % 1000000000 :=
        Int.tmod_eq_emod h0 (by norm_num)
      have e3 : sinceStart t / 1000000000 = t.sec - sqlStartTime.sec := by omega
      have e4 : sinceStart t % 1000000000 = t.nsec := by omega
      unfold Time.Add
      simp only [e1, e2, e3, e4, hun, zero_add]
      rw [if_neg (by omega), if_neg (by omega)]
      cases t
      simp
    unfold Time.Sub
    simp only [w1, w2, w3, hadd, if_true]
  · intro hge
    have hne : sqlStartTime.Add
        (wrapS 64 (wrapS 64 (wrapS 64 (t.sec - sqlStartTime.sec) * Second)
          + (t.nsec - sqlStartTime.nsec))) ≠ t := by
      intro he
      have h1 := sinceStart_Add sqlStartTime
        (wrapS 64 (wrapS 64 (wrapS 64 (t.sec - sqlStartTime.sec) * Second)
          + (t.nsec - sqlStartTime.nsec)))
      rw [he] at h1
      have h2 : sinceStart sqlStartTime = 0 := rfl
      rw [h2, zero_add] at h1
      have h3 := wrapS_lt 64 (by norm_num)
        (wrapS 64 (wrapS 64 (t.sec - sqlStartTime.sec) * Second)
          + (t.nsec - sqlStartTime.nsec))
      rw [← h1] at h3
      norm_num at h3 hge
      omega
    have hbef : t.Before sqlStartTime = false := by
      unfold Time.Before
      rw [decide_eq_false_iff_not]
      omega
    unfold Time.Sub
    simp only [hne, if_false, hbef]
    rfl

/-- The clock fields of an instant `secs` seconds after 1900-01-01 add up to the
second of its day. -/
theorem clock_seconds (t : Time) (hs1 : sqlStartTime.sec ≤ t.sec)
    (hs2 : t.sec - sqlStartTime.sec < 10000000000) :
    (t.Hour * 60 + t.Minute) * 60 + t.Second = (t.sec - sqlStartTime.sec) % 86400 := by
  have hu : sqlStartTime.sec = 59926608000 := rfl
  have habs : ((t.abs : Nat) : Int) = t.sec + 9223371966579724800 := by
    unfold Time.abs
    rw [wrapU_cast]
    norm_num
    omega
  unfold Time.Hour Time.Minute Time.Second
  push_cast
  rw [habs]
  omega
/-- The day field both date encoders compute, `int32(d.Hours() / 24)`, for a Duration
`d` inside day `day` and at least a 300th of a second before its end. -/
theorem encoder_days (d : Int) (day : Nat) (hday : day ≤ 106751)
    (h1 : (day : Int) * 86400000000000 ≤ d)
    (h2 : d ≤ (day : Int) * 86400000000000 + 86399996666666) :
    Float64.toInt32 (Float64.div (Hours d) (Float64.ofInt 24)) = (day : Int) := by
  have h0 : 0 ≤ d := by omega
  have hH : Hour = 3600000000000 := by norm_num [Hour]
  have e1 : Int.tdiv d Hour = d / 3600000000000 := by
    rw [hH]; exact Int.tdiv_eq_ediv h0 (by norm_num)
  have e2 : Int.tmod d Hour = d % 3600000000000 := by
    rw [hH]; exact Int.tmod_eq_emod h0 (by norm_num)
  obtain ⟨h, hh⟩ : ∃ h : ℕ, ((24 * day + h : ℕ) : ℤ) = d / 3600000000000 :=
    ⟨(d / 3600000000000 - 24 * day).toNat, by push_cast; omega⟩
  obtain ⟨nsec, hns⟩ : ∃ nsec : ℕ, (nsec : ℤ) = d % 3600000000000 :=
    ⟨(d % 3600000000000).toNat, by omega⟩
  unfold Hours
  simp only [e1, e2]
  rw [← hh, ← hns]
  push_cast at hh
  exact Float64.days_of_hours day h nsec hday (by omega) (by omega) (by omega)

/-- C19. DATETIME wire-level inverse: an 8-byte buffer whose day field lies in
`0 .. 106751` and whose tick field is below 25,920,000 decodes to an instant
that the encoder turns back into the same 8 bytes. -/
theorem datetime_wire_inverse (w : List Nat) (hlen : w.length = 8) (hb : IsBytes w)
    (hd1 : 0 ≤ dayField w) (hd2 : dayField w ≤ 106751) (ht : tickField w < 25920000) :
    ∃ t, sqlBufToType SYBDATETIME w = some (Value.time t)
      ∧ typeToSqlBuf SYBDATETIME (Value.time t) = Except.ok w := by
  obtain ⟨t, hdec, hn1, hn2, hss⟩ := datetime_decode_in_range w hlen hb (by omega) hd2
  refine ⟨t, hdec, ?_⟩
  obtain ⟨day, hday⟩ : ∃ day : ℕ, (day : ℤ) = dayField w := ⟨(dayField w).toNat, by omega⟩
  have hu : sqlStartTime.sec = 59926608000 := rfl
  have hssdef : sinceStart t = (t.sec - sqlStartTime.sec) * 1000000000 + t.nsec := rfl
  rw [← hday] at hss hd2
  rw [hssdef] at hss
  -- seconds and nanoseconds of the decoded instant
  have hsec : t.sec - sqlStartTime.sec = (day : ℤ) * 86400 + (tickField w : ℤ) / 300 := by
    omega
  have hnsec : t.nsec = ((tickField w : ℤ) % 300) * 1000000000 / 300 := by omega
  have hs1 : sqlStartTime.sec ≤ t.sec := by omega
  have hs2 : t.sec - sqlStartTime.sec < 10000000000 := by omega
  -- the tick field
  have hclock := clock_seconds t hs1 hs2
  have hticks : ((t.Hour * 60 + t.Minute) * 60 + t.Second) * 300
      + Int.tdiv t.Nanosecond 3333333 = (tickField w : ℤ) := by
    have e : Int.tdiv t.Nanosecond 3333333 = t.nsec / 3333333 :=
      Int.tdiv_eq_ediv hn1 (by norm_num)
    have k1 : t.nsec / 3333333 = (tickField w : ℤ) % 300 := by
      rw [hnsec]; omega
    have k2 : (t.sec - sqlStartTime.sec) % 86400 = (tickField w : ℤ) / 300 := by
      rw [hsec]; omega
    rw [e, hclock, k1, k2]
    omega
  -- the day field
  have hdays : Float64.toInt32 (Float64.div (Hours (t.Sub sqlStartTime)) (Float64.ofInt 24))
      = (day : ℤ) := by
    obtain ⟨s1, s2⟩ := Sub_sqlStartTime t hn1 hn2 hs1 hs2
    by_cases hfit : sinceStart t < (2 : ℤ) ^ 63
    · rw [s1 hfit, hssdef]
      exact encoder_days _ day (by omega) (by omega) (by omega)
    · rw [s2 (by omega)]
      rw [hssdef] at hfit
      norm_num at hfit
      exact encoder_days _ day (by omega) (by norm_num [maxDuration]; omega)
        (by norm_num [maxDuration]; omega)
  -- the bytes
  have hw : w = w.take 4 ++ (w.drop 4).take 4 := by
    have : (w.drop 4).take 4 = w.drop 4 := List.take_of_length_le (by simp [hlen])
    rw [this, List.take_append_drop]
  have hb1 : IsBytes (w.take 4) := fun x hx => hb x (List.mem_of_mem_take hx)
  have hb2 : IsBytes ((w.drop 4).take 4) :=
    fun x hx => hb x (List.mem_of_mem_drop (List.mem_of_mem_take hx))
  have hl1 : (w.take 4).length = 4 := by simp [hlen]
  have hl2 : ((w.drop 4).take 4).length = 4 := by simp [hlen]
  have hlt1 : leNat (w.take 4) < 2 ^ 32 := by
    have := leNat_lt _ hb1
    rw [hl1] at this
    norm_num at this ⊢
    exact this
  have hbytes1 : writeInt 4 (dayField w) = w.take 4 := by
    unfold writeInt dayField
    rw [wrapU_wrapS, wrapU_natCast, Nat.mod_eq_of_lt hlt1]
    have := leBytes_leNat _ hb1
    rw [hl1] at this
    exact this
  have hbytes2 : writeUint 4 (wrapU 32 (tickField w : ℤ)) = (w.drop 4).take 4 := by
    have hlt2 : tickField w < 2 ^ 32 := by norm_num; omega
    unfold writeUint
    rw [wrapU_natCast, Nat.mod_eq_of_lt hlt2]
    have := leBytes_leNat _ hb2
    rw [hl2] at this
    exact this
  have henc : typeToSqlBuf SYBDATETIME (Value.time t)
      = Except.ok (writeInt 4 (Float64.toInt32
            (Float64.div (Hours (t.Sub sqlStartTime)) (Float64.ofInt 24)))
          ++ writeUint 4 (wrapU 32
            (((t.Hour * 60 + t.Minute) * 60 + t.Second) * 300
              + Int.tdiv t.Nanosecond 3333333))) := by
    simp [typeToSqlBuf]
  rw [henc, hdays, hticks, hday, hbytes1, hbytes2, ← hw]
/-- C19, for day 200 with the last tick of the day, 25,919,999. -/
theorem datetime_wire_inverse_witness :
    ∃ t, sqlBufToType SYBDATETIME [200, 0, 0, 0, 255, 129, 139, 1] = some (Value.time t)
      ∧ typeToSqlBuf SYBDATETIME (Value.time t)
        = Except.ok [200, 0, 0, 0, 255, 129, 139, 1] :=
  datetime_wire_inverse [200, 0, 0, 0, 255, 129, 139, 1] (by decide) (by decide)
    (by decide) (by decide) (by decide)

/-- C11, at three instants.  At 1900-01-01 00:00:00.003333333 the encoder writes
tick `1` where the exact count of 300ths is `0`; at 23:59:59.999999999 of that
day it writes `25920000` where the exact count is `25919999`; at the last
nanosecond of 1900-07-19 it writes day `200` where the whole days are `199`. -/
theorem datetime_encode_fields_off :
    typeToSqlBuf SYBDATETIME (Value.time ⟨59926608000, 3333333⟩)
        = Except.ok [0, 0, 0, 0, 1, 0, 0, 0]
    ∧ tickField [0, 0, 0, 0, 1, 0, 0, 0] = 1
    ∧ exactTicks ⟨59926608000, 3333333⟩ = 0
    ∧ typeToSqlBuf SYBDATETIME (Value.time ⟨59926608000 + 86399, 999999999⟩)
        = Except.ok [0, 0, 0, 0, 0, 130, 139, 1]
    ∧ tickField [0, 0, 0, 0, 0, 130, 139, 1] = 25920000
    ∧ exactTicks ⟨59926608000 + 86399, 999999999⟩ = 25919999
    ∧ typeToSqlBuf SYBDATETIME (Value.time ⟨59926608000 + 200 * 86400 - 1, 999999999⟩)
        = Except.ok [200, 0, 0, 0, 0, 130, 139, 1]
    ∧ dayField [200, 0, 0, 0, 0, 130, 139, 1] = 200
    ∧ wholeDays ⟨59926608000 + 200 * 86400 - 1, 999999999⟩ = 199 := by
  decide!

/-- C12, at the last nanosecond of 1900-07-19 (day 199 after the start): the
SMALLDATETIME encoder writes day `200` and minute `1439`, and the decoder
returns 1900-07-20 23:59, which is 86340 seconds and a nanosecond after the
instant encoded. -/
theorem smalldatetime_roundtrip_off :
    wholeDays ⟨59926608000 + 200 * 86400 - 1, 999999999⟩ = 199
    ∧ typeToSqlBuf SYBDATETIME4 (Value.time ⟨59926608000 + 200 * 86400 - 1, 999999999⟩)
        = Except.ok [200, 0, 159, 5]
    ∧ leNat [200, 0] = 200 ∧ leNat [159, 5] = 23 * 60 + 59
    ∧ sqlBufToType SYBDATETIME4 [200, 0, 159, 5]
        = some (Value.time ⟨59926608000 + 200 * 86400 + 86340, 0⟩)
    ∧ sinceStart ⟨59926608000 + 200 * 86400 + 86340, 0⟩
        - sinceStart ⟨59926608000 + 200 * 86400 - 1, 999999999⟩ = 86340 * 1000000000 + 1 := by
  decide!

/-- C20, at 23:59:59.999999999 of 1900-01-01 and at 00:00:00.999999900: the
nanosecond over 3333333 is `300`, so the encoder writes the tick counts
25,920,000 (a whole day) and 300 (a whole second). -/
theorem datetime_tick_reaches_day :
    Int.tdiv (Time.Nanosecond ⟨59926608000 + 86399, 999999999⟩) 3333333 = 300
    ∧ typeToSqlBuf SYBDATETIME (Value.time ⟨59926608000 + 86399, 999999999⟩)
        = Except.ok [0, 0, 0, 0, 0, 130, 139, 1]
    ∧ tickField [0, 0, 0, 0, 0, 130, 139, 1] = 25920000
    ∧ sqlBufToType SYBDATETIME [0, 0, 0, 0, 0, 130, 139, 1]
        = some (Value.time ⟨59926608000 + 86400, 0⟩)
    ∧ typeToSqlBuf SYBDATETIME (Value.time ⟨59926608000, 999999900⟩)
        = Except.ok [0, 0, 0, 0, 44, 1, 0, 0]
    ∧ tickField [0, 0, 0, 0, 44, 1, 0, 0] = 300 := by
  decide!

end Freetds
